import Mathlib

/-!
# BinaryWire (BiWi) — verification of the specification against the code

Shallow embedding of the BiWi codec (`src/encoder.rs`, `src/decoder.rs`,
`src/message.rs`) and the reliable-UDP layer (`src/network.rs`).

Modelling conventions:
* bytes are `Nat` values; the encoder truncates with `% 256` exactly where the
  Rust code casts to `u8`;
* `u32`/`u64` arithmetic is `Nat` with explicit `% 2^32` / `% 2^64` at the
  points where Rust truncates or wraps;
* `i32`/`i64` values are `Int`; two's-complement reinterpretations
  (`as u8`, `as i8`, zigzag shifts) are spelled out bit-faithfully;
* `f32`/`f64` payloads are carried as their IEEE bit patterns (`Nat`),
  since the codec only moves the big-endian bytes of those patterns;
* Rust `Instant` timestamps become explicit `Nat` "now" parameters;
* the decoder's mutual recursion is driven by a fuel parameter; fuel
  exhaustion is reported as `InsufficientData "recursion fuel"`, and it is
  proved below that any fuel above the live byte count gives the same result,
  so the canonical instances compute exactly what the Rust code computes.
-/

namespace BiWi

/-- Decoder errors, from `DecodeError` in `src/decoder.rs`. -/
inductive DecodeError where
  | insufficientData (ctx : String)
  | unknownType (code : Nat)
  | invalidData (ctx : String)
deriving Repr, DecidableEq

/-- The value model, from `BiWiValue` in `src/encoder.rs`.  Strings are carried
as UTF-8 byte lists; floats as IEEE bit patterns; objects as association
lists (one possible iteration order of the Rust `HashMap`). -/
inductive BiWiValue where
  | null
  | boolean (b : Bool)
  | int32 (n : Int)
  | int64 (n : Int)
  | float32 (bits : Nat)
  | float64 (bits : Nat)
  | smallString (bytes : List Nat)
  | string (bytes : List Nat)
  | binary (data : List Nat)
  | array (items : List BiWiValue)
  | object (entries : List (List Nat × BiWiValue))
deriving Repr

/-- Constructor discriminant, modelling `std::mem::discriminant`. -/
def discr : BiWiValue → Nat
  | .null => 0
  | .boolean _ => 1
  | .int32 _ => 2
  | .int64 _ => 3
  | .float32 _ => 4
  | .float64 _ => 5
  | .smallString _ => 6
  | .string _ => 7
  | .binary _ => 8
  | .array _ => 9
  | .object _ => 10

/-- Big-endian byte expansion of the low `n` bytes of `v`
(`to_be_bytes` on a value already reduced to its bit pattern). -/
def beBytes (n : Nat) (v : Nat) : List Nat :=
  (List.range n).map (fun i => (v >>> (8 * (n - 1 - i))) % 256)

/-- `u32` two's-complement representation of an `i32` value. -/
def toU32 (n : Int) : Nat := (n % (4294967296 : Int)).toNat

/-- `u64` two's-complement representation of an `i64` value. -/
def toU64 (n : Int) : Nat := (n % (18446744073709551616 : Int)).toNat

/-- ZigZag of an `i32`: `((n << 1) ^ (n >> 31)) as u32`
(`src/encoder.rs`, Int32 branch).  The arithmetic shift right by 31 of an
`i32` is all-ones exactly when `n < 0`. -/
def zigzag32 (n : Int) : Nat :=
  ((toU32 n <<< 1) % 2 ^ 32) ^^^ (if n < 0 then 2 ^ 32 - 1 else 0)

/-- ZigZag of an `i64`: `((n << 1) ^ (n >> 63)) as u64`. -/
def zigzag64 (n : Int) : Nat :=
  ((toU64 n <<< 1) % 2 ^ 64) ^^^ (if n < 0 then 2 ^ 64 - 1 else 0)

/-- ZigZag inverse for `u32` (`zigzag_decode_i32` in `src/decoder.rs`):
`((value >> 1) as i32) ^ -((value & 1) as i32)`. -/
def zigzagDecode32 (u : Nat) : Int :=
  if u &&& 1 = 1 then -((u >>> 1 : Nat) : Int) - 1 else ((u >>> 1 : Nat) : Int)

/-- ZigZag inverse for `u64` (`zigzag_decode_i64`). -/
def zigzagDecode64 (u : Nat) : Int :=
  if u &&& 1 = 1 then -((u >>> 1 : Nat) : Int) - 1 else ((u >>> 1 : Nat) : Int)

/-- The single byte used for the Int32/Int64 small-integer fast path:
`((n as i8) as u8) | 0x80` (`src/encoder.rs`).  `Int.emod` by 256 is the
two's-complement `u8` reinterpretation. -/
def smallIntByte (n : Int) : Nat := ((n % (256 : Int)).toNat) ||| 0x80

/-- The tail of `write_varint` in `src/encoder.rs`: the
`while value >= 0x80` loop followed by the final push. -/
def writeVarintCore (value : Nat) : List Nat :=
  if h : value < 0x80 then [value &&& 0x7f]
  else ((value &&& 0x7f) ||| 0x80) :: writeVarintCore (value >>> 7)
termination_by value
decreasing_by
  simp only [Nat.shiftRight_eq_div_pow]
  omega

/-- `write_varint` (`src/encoder.rs`): one-byte and two-byte fast paths, then
the general loop. -/
def writeVarint (value : Nat) : List Nat :=
  if value < 0x80 then [value]
  else if value < 0x4000 then
    [(value &&& 0x7f) ||| 0x80, (value >>> 7) &&& 0x7f]
  else writeVarintCore value

/-- `write_varint_u64` (`src/encoder.rs`); same byte-level structure. -/
def writeVarint64 (value : Nat) : List Nat :=
  if value < 0x80 then [value &&& 0x7f]
  else if value < 0x4000 then
    [(value &&& 0x7f) ||| 0x80, (value >>> 7) &&& 0x7f]
  else writeVarintCore value

/-- Count byte for arrays and objects: one raw byte under 128, else a varint
(`encode_array` / `encode_object`). -/
def lenBytes (n : Nat) : List Nat :=
  if n < 128 then [n % 256] else writeVarint n

/-- Whether `encode_array` takes the packed path: non-empty, all elements of
one discriminant, and that discriminant one of Int32/Int64/Float32/Float64. -/
def packable : List BiWiValue → Bool
  | [] => false
  | v :: vs =>
    (vs.all (fun w => discr w == discr v)) &&
      (match v with
       | .int32 _ | .int64 _ | .float32 _ | .float64 _ => true
       | _ => false)

/-- The packed-array element type byte (`encode_packed_array`). -/
def packedTypeByte : BiWiValue → Nat
  | .int32 _ => 0x02
  | .int64 _ => 0x03
  | .float32 _ => 0x04
  | .float64 _ => 0x05
  | _ => 0

/-- A packed element's payload (no per-element type byte),
from the loop in `encode_packed_array`; the default arm is the
`unreachable!` of the source. -/
def packedElem : BiWiValue → List Nat
  | .int32 n => writeVarint (zigzag32 n)
  | .int64 n => writeVarint64 (zigzag64 n)
  | .float32 bits => beBytes 4 bits
  | .float64 bits => beBytes 8 bits
  | _ => []

/-- The length prefix of `encode_string`: raw byte under 128, hand-rolled two
bytes under `0x4000`, else `write_varint`. -/
def stringLenBytes (n : Nat) : List Nat :=
  if n < 128 then [n % 256]
  else if n < 0x4000 then [(n &&& 0x7f) ||| 0x80, (n >>> 7) &&& 0x7f]
  else writeVarint n

mutual

/-- `encode_value` (`src/encoder.rs`). -/
def encodeValue : BiWiValue → List Nat
  | .null => [0x00]
  | .boolean b => if b then [0x01] else [0xFF]
  | .int32 n =>
    0x02 :: (if -64 ≤ n ∧ n ≤ 63 then [smallIntByte n] else writeVarint (zigzag32 n))
  | .int64 n =>
    0x03 :: (if -64 ≤ n ∧ n ≤ 63 then [smallIntByte n] else writeVarint64 (zigzag64 n))
  | .float32 bits => 0x04 :: beBytes 4 bits
  | .float64 bits => 0x05 :: beBytes 8 bits
  | .smallString s => 0x06 :: (0x80 ||| (s.length &&& 0x7F)) :: s
  | .string s => 0x06 :: stringLenBytes s.length ++ s
  | .binary d => 0x07 :: writeVarint d.length ++ d
  | .array items =>
    if packable items then
      0x88 :: packedTypeByte (items.headD .null) :: lenBytes items.length
        ++ items.flatMap packedElem
    else
      0x08 :: lenBytes items.length ++ encodeValues items
  | .object entries => 0x09 :: lenBytes entries.length ++ encodeEntries entries

/-- Elementwise encoding of a heterogeneous array body. -/
def encodeValues : List BiWiValue → List Nat
  | [] => []
  | v :: vs => encodeValue v ++ encodeValues vs

/-- Object body: per entry a key length, the key bytes, then the value
(`encode_object`). -/
def encodeEntries : List (List Nat × BiWiValue) → List Nat
  | [] => []
  | (k, v) :: es => lenBytes k.length ++ k ++ encodeValue v ++ encodeEntries es

end

/-- The wire-type hint chosen by `encode_field`. -/
def wireType : BiWiValue → Nat
  | .int32 _ | .int64 _ => 2
  | .string _ | .binary _ | .array _ | .object _ => 3
  | .float32 _ => 0
  | .float64 _ => 1
  | _ => 2

/-- `encode_field` (`src/encoder.rs`): compact single-byte header
`(field_id as u8) << 2 | (wire_type & 3)` for ids 1–63, else the extended
varint of `(field_id as u64) << 3 | wire_type`. -/
def encodeField (fieldId : Nat) (v : BiWiValue) : List Nat :=
  (if 0 < fieldId ∧ fieldId ≤ 63 then
    [(((fieldId % 256) <<< 2) % 256) ||| (wireType v &&& 0x3)]
  else
    writeVarint64 ((fieldId <<< 3) ||| wireType v)) ++ encodeValue v

/-! ## Decoder (`src/decoder.rs`)

The decoder walks the unread suffix of the buffer; "un-consuming" a byte
the code has just read (as `decode_field` and `decode_string` do) corresponds
to passing the unshortened list here.  `decode_int32`/`decode_int64` are
different: they peek WITHOUT advancing, so their `self.offset -= 1` moves the
cursor backward past the start of their own input, onto the type byte
`decode_value` consumed; they are therefore modelled on the suffix that
starts at that type byte.  The mutual
recursion over nested arrays/objects is driven by a fuel argument that every
recursive call decrements; fuel exhaustion yields
`InsufficientData "recursion fuel"`.  `decoder_fuel_sufficient` below shows
any fuel above `2 * length + 1` gives identical results, so the canonical
entry points (`decodeValue`, `decodeField`, `decodeAll`) are exact models. -/

/-- Tail of `read_varint`: the continuation loop.  `value` is a `u32`
accumulator; the shifted contribution is truncated to 32 bits exactly as the
`u32` arithmetic does. -/
def readVarintLoop (value shift : Nat) : List Nat → Except DecodeError (Nat × List Nat)
  | [] => .error (.insufficientData "varint continuation")
  | b :: rest =>
    let value' := value ||| (((b &&& 0x7f) <<< shift) % 2 ^ 32)
    if b &&& 0x80 = 0 then .ok (value', rest)
    else readVarintLoop value' (shift + 7) rest

/-- `read_varint` (`src/decoder.rs`). -/
def readVarint : List Nat → Except DecodeError (Nat × List Nat)
  | [] => .error (.insufficientData "varint")
  | b :: rest =>
    if b &&& 0x80 = 0 then .ok (b, rest)
    else readVarintLoop (b &&& 0x7f) 7 rest

/-- Tail of `read_varint_u64`: continuation loop with a `u64` accumulator. -/
def readVarint64Loop (value shift : Nat) : List Nat → Except DecodeError (Nat × List Nat)
  | [] => .error (.insufficientData "varint64 continuation")
  | b :: rest =>
    let value' := value ||| (((b &&& 0x7f) <<< shift) % 2 ^ 64)
    if b &&& 0x80 = 0 then .ok (value', rest)
    else readVarint64Loop value' (shift + 7) rest

/-- `read_varint_u64` (`src/decoder.rs`). -/
def readVarint64 : List Nat → Except DecodeError (Nat × List Nat)
  | [] => .error (.insufficientData "varint64")
  | b :: rest =>
    if b &&& 0x80 = 0 then .ok (b, rest)
    else readVarint64Loop (b &&& 0x7f) 7 rest

/-- Bounds-checked read of `n` raw bytes. -/
def readBytesN (n : Nat) (l : List Nat) : Option (List Nat × List Nat) :=
  if n ≤ l.length then some (l.take n, l.drop n) else none

/-- Whether a byte is a UTF-8 continuation byte (`10xxxxxx`). -/
def isCont (b : Nat) : Bool := 0x80 ≤ b && b ≤ 0xBF

/-- UTF-8 validity of a byte sequence, the check performed by Rust's
`str::from_utf8` / `String::from_utf8` (modelled from the UTF-8 table those
library calls implement). -/
def utf8Valid : List Nat → Bool
  | [] => true
  | b :: rest =>
    if b ≤ 0x7F then utf8Valid rest
    else if 0xC2 ≤ b && b ≤ 0xDF then
      match rest with
      | c1 :: r => isCont c1 && utf8Valid r
      | _ => false
    else if b = 0xE0 then
      match rest with
      | c1 :: c2 :: r => (0xA0 ≤ c1 && c1 ≤ 0xBF) && isCont c2 && utf8Valid r
      | _ => false
    else if (0xE1 ≤ b && b ≤ 0xEC) || b = 0xEE || b = 0xEF then
      match rest with
      | c1 :: c2 :: r => isCont c1 && isCont c2 && utf8Valid r
      | _ => false
    else if b = 0xED then
      match rest with
      | c1 :: c2 :: r => (0x80 ≤ c1 && c1 ≤ 0x9F) && isCont c2 && utf8Valid r
      | _ => false
    else if b = 0xF0 then
      match rest with
      | c1 :: c2 :: c3 :: r =>
        (0x90 ≤ c1 && c1 ≤ 0xBF) && isCont c2 && isCont c3 && utf8Valid r
      | _ => false
    else if 0xF1 ≤ b && b ≤ 0xF3 then
      match rest with
      | c1 :: c2 :: c3 :: r => isCont c1 && isCont c2 && isCont c3 && utf8Valid r
      | _ => false
    else if b = 0xF4 then
      match rest with
      | c1 :: c2 :: c3 :: r =>
        (0x80 ≤ c1 && c1 ≤ 0x8F) && isCont c2 && isCont c3 && utf8Valid r
      | _ => false
    else false

/-- `decode_int32` (`src/decoder.rs`), applied to the buffer suffix that
starts at the TYPE byte `decode_value` just consumed, with the cursor one
past it.  The function peeks at the value byte without advancing
(`let byte = self.buffer[self.offset]`, no `offset += 1`).  A peeked byte
with the high bit set is consumed and taken whole as `(byte as i8) as i32`
— that is, `byte - 256`.  Otherwise `self.offset -= 1` does not undo the
peek (which never moved) but rewinds onto the preceding type byte, and
`read_varint` restarts THERE; the peeked value byte stays unread.  The
bounds check `offset >= len` is "fewer than two bytes from the type byte". -/
def decodeInt32 : List Nat → Except DecodeError (BiWiValue × List Nat)
  | t :: b :: rest =>
    if b &&& 0x80 ≠ 0 then .ok (.int32 ((b : Int) - 256), rest)
    else
      match readVarint (t :: b :: rest) with
      | .error e => .error e
      | .ok (u, r) => .ok (.int32 (zigzagDecode32 u), r)
  | _ => .error (.insufficientData "int32 value")

/-- `decode_int64` (`src/decoder.rs`); same shape — including the same
backward cursor move onto the type byte — over the 64-bit varint. -/
def decodeInt64 : List Nat → Except DecodeError (BiWiValue × List Nat)
  | t :: b :: rest =>
    if b &&& 0x80 ≠ 0 then .ok (.int64 ((b : Int) - 256), rest)
    else
      match readVarint64 (t :: b :: rest) with
      | .error e => .error e
      | .ok (u, r) => .ok (.int64 (zigzagDecode64 u), r)
  | _ => .error (.insufficientData "int64 value")

/-- Reassemble a big-endian byte list into the bit pattern it spells. -/
def beVal (bytes : List Nat) : Nat := bytes.foldl (fun acc b => acc * 256 + b % 256) 0

/-- `decode_float32`: four big-endian bytes. -/
def decodeFloat32 (l : List Nat) : Except DecodeError (BiWiValue × List Nat) :=
  match readBytesN 4 l with
  | none => .error (.insufficientData "float32")
  | some (bs, r) => .ok (.float32 (beVal bs), r)

/-- `decode_float64`: eight big-endian bytes. -/
def decodeFloat64 (l : List Nat) : Except DecodeError (BiWiValue × List Nat) :=
  match readBytesN 8 l with
  | none => .error (.insufficientData "float64")
  | some (bs, r) => .ok (.float64 (beVal bs), r)

/-- `decode_string` (`src/decoder.rs`): a length byte with the high bit set
is a small string of `len & 0x7F` bytes (re-canonicalised to `SmallString`
when it fits in 15 bytes); otherwise the length is a varint starting at that
byte. -/
def decodeString : List Nat → Except DecodeError (BiWiValue × List Nat)
  | [] => .error (.insufficientData "string length")
  | b :: rest =>
    if b &&& 0x80 ≠ 0 then
      let length := b &&& 0x7F
      match readBytesN length rest with
      | none => .error (.insufficientData "small string content")
      | some (bs, r) =>
        if utf8Valid bs then
          if bs.length ≤ 15 then .ok (.smallString bs, r) else .ok (.string bs, r)
        else .error (.invalidData "invalid UTF-8 in small string")
    else
      match readVarint (b :: rest) with
      | .error e => .error e
      | .ok (length, r1) =>
        match readBytesN length r1 with
        | none => .error (.insufficientData "string content")
        | some (bs, r) =>
          if utf8Valid bs then .ok (.string bs, r)
          else .error (.invalidData "invalid UTF-8")

/-- `decode_binary` (`src/decoder.rs`). -/
def decodeBinary (l : List Nat) : Except DecodeError (BiWiValue × List Nat) :=
  match readVarint l with
  | .error e => .error e
  | .ok (length, r1) =>
    match readBytesN length r1 with
    | none => .error (.insufficientData "binary content")
    | some (bs, r) => .ok (.binary bs, r)

/-- Packed Int32 element loop of `decode_packed_array`. -/
def decodePackedInt32s : Nat → List Nat → Except DecodeError (List BiWiValue × List Nat)
  | 0, l => .ok ([], l)
  | n + 1, l =>
    match readVarint l with
    | .error e => .error e
    | .ok (u, r) =>
      match decodePackedInt32s n r with
      | .error e => .error e
      | .ok (vs, r') => .ok (.int32 (zigzagDecode32 u) :: vs, r')

/-- Packed Int64 element loop of `decode_packed_array`. -/
def decodePackedInt64s : Nat → List Nat → Except DecodeError (List BiWiValue × List Nat)
  | 0, l => .ok ([], l)
  | n + 1, l =>
    match readVarint64 l with
    | .error e => .error e
    | .ok (u, r) =>
      match decodePackedInt64s n r with
      | .error e => .error e
      | .ok (vs, r') => .ok (.int64 (zigzagDecode64 u) :: vs, r')

/-- Packed Float32 element loop of `decode_packed_array`. -/
def decodePackedFloat32s : Nat → List Nat → Except DecodeError (List BiWiValue × List Nat)
  | 0, l => .ok ([], l)
  | n + 1, l =>
    match readBytesN 4 l with
    | none => .error (.insufficientData "float32 in packed array")
    | some (bs, r) =>
      match decodePackedFloat32s n r with
      | .error e => .error e
      | .ok (vs, r') => .ok (.float32 (beVal bs) :: vs, r')

/-- Packed Float64 element loop of `decode_packed_array`. -/
def decodePackedFloat64s : Nat → List Nat → Except DecodeError (List BiWiValue × List Nat)
  | 0, l => .ok ([], l)
  | n + 1, l =>
    match readBytesN 8 l with
    | none => .error (.insufficientData "float64 in packed array")
    | some (bs, r) =>
      match decodePackedFloat64s n r with
      | .error e => .error e
      | .ok (vs, r') => .ok (.float64 (beVal bs) :: vs, r')

/-- `decode_packed_array` (`src/decoder.rs`): element type byte, count,
then typed element payloads with no per-element type bytes. -/
def decodePackedArray : List Nat → Except DecodeError (BiWiValue × List Nat)
  | [] => .error (.insufficientData "packed array type")
  | et :: rest =>
    match readVarint rest with
    | .error e => .error e
    | .ok (count, r) =>
      if et = 0x02 then
        match decodePackedInt32s count r with
        | .error e => .error e
        | .ok (vs, r') => .ok (.array vs, r')
      else if et = 0x03 then
        match decodePackedInt64s count r with
        | .error e => .error e
        | .ok (vs, r') => .ok (.array vs, r')
      else if et = 0x04 then
        match decodePackedFloat32s count r with
        | .error e => .error e
        | .ok (vs, r') => .ok (.array vs, r')
      else if et = 0x05 then
        match decodePackedFloat64s count r with
        | .error e => .error e
        | .ok (vs, r') => .ok (.array vs, r')
      else .error (.invalidData "unknown packed array element type")

mutual

/-- `decode_value` (`src/decoder.rs`), fuel-indexed. -/
def decodeValueF : Nat → List Nat → Except DecodeError (BiWiValue × List Nat)
  | 0, _ => .error (.insufficientData "recursion fuel")
  | _ + 1, [] => .error (.insufficientData "type byte")
  | fuel + 1, t :: rest =>
    if t = 0x88 then decodePackedArray rest
    else if t = 0x00 then .ok (.null, rest)
    else if t = 0x01 then .ok (.boolean true, rest)
    else if t = 0xFF then .ok (.boolean false, rest)
    else if t = 0x02 then decodeInt32 (t :: rest)
    else if t = 0x03 then decodeInt64 (t :: rest)
    else if t = 0x04 then decodeFloat32 rest
    else if t = 0x05 then decodeFloat64 rest
    else if t = 0x06 then decodeString rest
    else if t = 0x07 then decodeBinary rest
    else if t = 0x08 then
      match readVarint rest with
      | .error e => .error e
      | .ok (count, r) =>
        match decodeElemsF fuel count r with
        | .error e => .error e
        | .ok (items, r') => .ok (.array items, r')
    else if t = 0x09 then
      match readVarint rest with
      | .error e => .error e
      | .ok (count, r) =>
        match decodeEntriesF fuel count r with
        | .error e => .error e
        | .ok (entries, r') => .ok (.object entries, r')
    else .error (.unknownType t)

/-- Element loop of `decode_array`, fuel-indexed. -/
def decodeElemsF : Nat → Nat → List Nat → Except DecodeError (List BiWiValue × List Nat)
  | 0, _, _ => .error (.insufficientData "recursion fuel")
  | _ + 1, 0, l => .ok ([], l)
  | fuel + 1, n + 1, l =>
    match decodeValueF fuel l with
    | .error e => .error e
    | .ok (v, r) =>
      match decodeElemsF fuel n r with
      | .error e => .error e
      | .ok (vs, r') => .ok (v :: vs, r')

/-- Entry loop of `decode_object`, fuel-indexed: key length, key bytes
(UTF-8 checked), then the value. -/
def decodeEntriesF : Nat → Nat → List Nat → Except DecodeError (List (List Nat × BiWiValue) × List Nat)
  | 0, _, _ => .error (.insufficientData "recursion fuel")
  | _ + 1, 0, l => .ok ([], l)
  | fuel + 1, n + 1, l =>
    match readVarint l with
    | .error e => .error e
    | .ok (klen, r1) =>
      match readBytesN klen r1 with
      | none => .error (.insufficientData "key content")
      | some (kbs, r2) =>
        if utf8Valid kbs then
          match decodeValueF fuel r2 with
          | .error e => .error e
          | .ok (v, r3) =>
            match decodeEntriesF fuel n r3 with
            | .error e => .error e
            | .ok (es, r') => .ok ((kbs, v) :: es, r')
        else .error (.invalidData "invalid key UTF-8")

end

/-- Canonical fuel: strictly more than any recursion chain the buffer can
sustain (each level of nesting consumes at least one byte). -/
def stdFuel (l : List Nat) : Nat := 2 * l.length + 1

/-- `decode_value` at canonical fuel. -/
def decodeValue (l : List Nat) : Except DecodeError (BiWiValue × List Nat) :=
  decodeValueF (stdFuel l) l

/-- `decode_field` (`src/decoder.rs`): compact header byte below `0x80`
(`id = H >> 2`), multi-byte extended varint at `0xC0` and above
(`id = (varint >> 3) as u32`), single extended byte otherwise
(`id = H >> 3`); then the value. -/
def decodeFieldF (fuel : Nat) : List Nat → Except DecodeError ((Nat × BiWiValue) × List Nat)
  | [] => .error (.insufficientData "field header")
  | h :: rest =>
    let idRes : Except DecodeError (Nat × List Nat) :=
      if h < 0x80 then .ok (h >>> 2, rest)
      else if 0xC0 ≤ h then
        match readVarint64 (h :: rest) with
        | .error e => .error e
        | .ok (u, r) => .ok ((u >>> 3) % 2 ^ 32, r)
      else .ok (h >>> 3, rest)
    match idRes with
    | .error e => .error e
    | .ok (fieldId, r) =>
      match decodeValueF fuel r with
      | .error e => .error e
      | .ok (v, r') => .ok ((fieldId, v), r')

/-- `decode_field` at canonical fuel. -/
def decodeField (l : List Nat) : Except DecodeError ((Nat × BiWiValue) × List Nat) :=
  decodeFieldF (stdFuel l) l

/-- Loop of `decode_all` (`src/decoder.rs`): decode fields while bytes
remain, silently stopping at the first error. -/
def decodeAllGo : Nat → List Nat → List (Nat × BiWiValue)
  | 0, _ => []
  | _ + 1, [] => []
  | fuel + 1, b :: rest =>
    match decodeField (b :: rest) with
    | .error _ => []
    | .ok (field, r) => field :: decodeAllGo fuel r

/-- `decode_all`: the loop never needs more than one iteration per byte,
since a successful `decode_field` consumes at least the header byte. -/
def decodeAll (l : List Nat) : List (Nat × BiWiValue) := decodeAllGo (l.length + 1) l

/-! ## Message (`src/message.rs`)

A message is the association list of its (field id, value) pairs — one
possible iteration order of the Rust `HashMap`. -/

/-- `set_field`: insert or overwrite. -/
def setField (m : List (Nat × BiWiValue)) (fieldId : Nat) (v : BiWiValue) :
    List (Nat × BiWiValue) :=
  (m.filter (fun e => e.1 ≠ fieldId)) ++ [(fieldId, v)]

/-- `get_field`. -/
def getField (m : List (Nat × BiWiValue)) (fieldId : Nat) : Option BiWiValue :=
  (m.find? (fun e => e.1 == fieldId)).map (·.2)

/-- `to_vec` (`src/message.rs`): encode every field in iteration order. -/
def toVec (m : List (Nat × BiWiValue)) : List Nat :=
  m.flatMap (fun e => encodeField e.1 e.2)

/-- `from_buffer` (`src/message.rs`): run `decode_all` and insert every
decoded field into a fresh message.  Note the `Ok` wrapper around an
operation that cannot fail: `decode_all` swallows every decoder error. -/
def fromBuffer (l : List Nat) : Except DecodeError (List (Nat × BiWiValue)) :=
  .ok ((decodeAll l).foldl (fun m e => setField m e.1 e.2) [])

/-! ## Network (`src/network.rs`)

`Instant` timestamps become explicit `Nat` parameters/fields, and
`Instant::duration_since` becomes truncated `Nat` subtraction (timestamps
only move forward in the source).  The `HashMap`/`HashSet` state is carried
as association lists in insertion order. -/

/-- `PacketType`. -/
inductive PacketType where
  | data
  | ack
  | ping
  | pong
deriving Repr, DecidableEq

/-- `MAX_PAYLOAD_SIZE = MAX_PACKET_SIZE - PACKET_HEADER_SIZE = 1280 - 13`. -/
def MAX_PAYLOAD_SIZE : Nat := 1280 - 13

/-- `FRAG_FIRST = 0x02`. -/
def FRAG_FIRST : Nat := 0x02

/-- `FRAG_LAST = 0x01`. -/
def FRAG_LAST : Nat := 0x01

/-- `UdpPacket` (header fields plus payload). -/
structure UdpPacket where
  packetType : PacketType
  sequence : Nat
  ackNumber : Nat
  flags : Nat
  payload : List Nat
deriving Repr, DecidableEq

/-- A pending-ACK record: the packet, its last-send instant, and the retry
count. -/
structure Pending where
  packet : UdpPacket
  sendTime : Nat
  retries : Nat
deriving Repr, DecidableEq

/-- `PacketManager` state. -/
structure PacketManager where
  sequenceNumber : Nat
  lastAckReceived : Nat
  pendingAcks : List (Nat × Pending)
  receivedSequences : List Nat
  ackTimeout : Nat
  maxRetries : Nat
deriving Repr, DecidableEq

/-- `PacketManager::new()`: sequence 0, `last_ack_received = u32::MAX`
("Start at max so first real ack is 0"), ACK timeout 100 ms, max retries 3. -/
def PacketManager.new : PacketManager :=
  { sequenceNumber := 0
    lastAckReceived := 2 ^ 32 - 1
    pendingAcks := []
    receivedSequences := []
    ackTimeout := 100
    maxRetries := 3 }

/-- `HashMap::insert` on the pending table. -/
def insertPending (pend : List (Nat × Pending)) (seq : Nat) (e : Pending) :
    List (Nat × Pending) :=
  (seq, e) :: pend.filter (fun kv => kv.1 ≠ seq)

/-- Lookup in the pending table. -/
def lookupPending (pm : PacketManager) (seq : Nat) : Option Pending :=
  (pm.pendingAcks.find? (fun kv => kv.1 == seq)).map (·.2)

/-- Fragmenting while-loop of `create_packets` (entered with more than
`MAX_PAYLOAD_SIZE` bytes): each round takes the next 1267-byte chunk, flags
FIRST on the first chunk and LAST on the chunk that reaches the end. -/
def fragLoop (now : Nat) (isFirst : Bool) (data : List Nat) (pm : PacketManager) :
    List UdpPacket × PacketManager :=
  if h : data.length ≤ MAX_PAYLOAD_SIZE then
    let flags := (if isFirst then FRAG_FIRST else 0) ||| FRAG_LAST
    let pkt : UdpPacket :=
      ⟨.data, pm.sequenceNumber, pm.lastAckReceived, flags, data⟩
    ([pkt],
      { pm with
        pendingAcks := insertPending pm.pendingAcks pm.sequenceNumber ⟨pkt, now, 0⟩
        sequenceNumber := (pm.sequenceNumber + 1) % 2 ^ 32 })
  else
    let chunk := data.take MAX_PAYLOAD_SIZE
    let flags := (if isFirst then FRAG_FIRST else 0) ||| 0
    let pkt : UdpPacket :=
      ⟨.data, pm.sequenceNumber, pm.lastAckReceived, flags, chunk⟩
    let pm' : PacketManager :=
      { pm with
        pendingAcks := insertPending pm.pendingAcks pm.sequenceNumber ⟨pkt, now, 0⟩
        sequenceNumber := (pm.sequenceNumber + 1) % 2 ^ 32 }
    let rec_ := fragLoop now false (data.drop MAX_PAYLOAD_SIZE) pm'
    (pkt :: rec_.1, rec_.2)
termination_by data.length
decreasing_by
  simp only [List.length_drop, MAX_PAYLOAD_SIZE] at h ⊢
  omega

/-- `create_packets` (`src/network.rs`): a single FIRST|LAST packet when the
payload fits, otherwise the fragmenting loop. -/
def createPackets (now : Nat) (data : List Nat) (pm : PacketManager) :
    List UdpPacket × PacketManager :=
  if data.length ≤ MAX_PAYLOAD_SIZE then
    let pkt : UdpPacket :=
      ⟨.data, pm.sequenceNumber, pm.lastAckReceived, FRAG_FIRST ||| FRAG_LAST, data⟩
    ([pkt],
      { pm with
        pendingAcks := insertPending pm.pendingAcks pm.sequenceNumber ⟨pkt, now, 0⟩
        sequenceNumber := (pm.sequenceNumber + 1) % 2 ^ 32 })
  else fragLoop now true data pm

/-- `record_received` (`src/network.rs`): duplicates return `false`;
otherwise the sequence is inserted and the piggyback ack is updated with
`last_ack_received.max(sequence)`. -/
def recordReceived (seq : Nat) (pm : PacketManager) : Bool × PacketManager :=
  if pm.receivedSequences.contains seq then (false, pm)
  else
    (true,
      { pm with
        receivedSequences := seq :: pm.receivedSequences
        lastAckReceived := max pm.lastAckReceived seq })

/-- `handle_ack`: remove the pending entry, reporting whether one existed. -/
def handleAck (ackNumber : Nat) (pm : PacketManager) : Bool × PacketManager :=
  (pm.pendingAcks.any (fun kv => kv.1 == ackNumber),
    { pm with pendingAcks := pm.pendingAcks.filter (fun kv => kv.1 ≠ ackNumber) })

/-- Per-entry body of `get_retransmit_packets`: timed-out entries with
retries left are re-stamped and returned; timed-out entries out of retries
are dropped; the rest are kept untouched. -/
def retxGo (now timeout maxR : Nat) :
    List (Nat × Pending) → List (UdpPacket × Nat) × List (Nat × Pending)
  | [] => ([], [])
  | (seq, e) :: rest =>
    let r := retxGo now timeout maxR rest
    if now - e.sendTime > timeout then
      if e.retries < maxR then
        ((e.packet, e.retries + 1) :: r.1,
          (seq, ⟨e.packet, now, e.retries + 1⟩) :: r.2)
      else (r.1, r.2)
    else (r.1, (seq, e) :: r.2)

/-- `get_retransmit_packets` (`src/network.rs`). -/
def getRetransmitPackets (now : Nat) (pm : PacketManager) :
    List (UdpPacket × Nat) × PacketManager :=
  let r := retxGo now pm.ackTimeout pm.maxRetries pm.pendingAcks
  (r.1, { pm with pendingAcks := r.2 })

/-- `FragmentReassembler` state: message id → fragment slots. -/
structure FragmentReassembler where
  incompleteMessages : List (Nat × List (Option (List Nat)))
deriving Repr, DecidableEq

/-- An empty reassembler. -/
def FragmentReassembler.new : FragmentReassembler := ⟨[]⟩

/-- Stored fragment vector for a message id (`entry(...).or_insert(Vec::new)`). -/
def getFrags (st : FragmentReassembler) (messageId : Nat) : List (Option (List Nat)) :=
  ((st.incompleteMessages.find? (fun kv => kv.1 == messageId)).map (·.2)).getD []

/-- Store a fragment vector under a message id (`HashMap` insert). -/
def setFrags (st : FragmentReassembler) (messageId : Nat)
    (v : List (Option (List Nat))) : FragmentReassembler :=
  ⟨(messageId, v) :: st.incompleteMessages.filter (fun kv => kv.1 ≠ messageId)⟩

/-- Drop a message id (`HashMap::remove`). -/
def removeFrags (st : FragmentReassembler) (messageId : Nat) : FragmentReassembler :=
  ⟨st.incompleteMessages.filter (fun kv => kv.1 ≠ messageId)⟩

/-- The `resize(idx + 1, None)` grow-only padding. -/
def padFrags (v : List (Option (List Nat))) (n : Nat) : List (Option (List Nat)) :=
  v ++ List.replicate (n - v.length) none

/-- The updated slot vector of `add_fragment`: pad to `idx + 1`, then fill
slot `idx` only if it is still empty (first-filled wins). -/
def fragsAfterAdd (v : List (Option (List Nat))) (idx : Nat) (data : List Nat) :
    List (Option (List Nat)) :=
  if ((padFrags v (idx + 1)).getD idx none).isNone then
    (padFrags v (idx + 1)).set idx (some data)
  else padFrags v (idx + 1)

/-- `add_fragment` (`src/network.rs`).  The `_is_first`/`_is_last`
parameters are deliberately unused in the source; they are kept here to
mirror the signature. -/
def addFragment (st : FragmentReassembler) (messageId fragmentIndex : Nat)
    (isFirstArg isLastArg : Bool) (data : List Nat) :
    Option (List Nat) × FragmentReassembler :=
  if !(fragsAfterAdd (getFrags st messageId) fragmentIndex data).isEmpty
      && (fragsAfterAdd (getFrags st messageId) fragmentIndex data).all Option.isSome then
    (some (fragsAfterAdd (getFrags st messageId) fragmentIndex data).reduceOption.flatten,
      removeFrags st messageId)
  else
    (none, setFrags st messageId (fragsAfterAdd (getFrags st messageId) fragmentIndex data))

/-! ## Claim C1 -/

/-- C1.  The claim states that `from_buffer(to_vec(m))` restores every
buildable message `m` as a mapping.  It fails: the message with field 1 =
Int32(5) encodes to `[0x06, 0x02, 0x85]`, and the decoder's small-integer
path sign-extends the 0x80 marker bit (`(0x85 as i8) as i32 = -123`), so
the round trip returns Int32(-123).  The repository's own test
`test_basic_encoding_decoding` in `src/lib.rs` asserts this very round trip
for Int32(42) and fails the same way, so this is a code bug, not intended
behaviour. -/
theorem c1_roundtrip_failure :
    toVec [(1, BiWiValue.int32 5)] = [0x06, 0x02, 0x85] ∧
    fromBuffer (toVec [(1, BiWiValue.int32 5)]) = .ok [(1, BiWiValue.int32 (-123))] ∧
    BiWiValue.int32 (-123) ≠ BiWiValue.int32 5 :=
  ⟨rfl, rfl, by simp⟩

/-! ## Claim C2 -/

/-- C2.  Encoding Int32(5) does produce exactly `[0x02, 0x85]` as the claim
says, but decoding those bytes yields Int32(-123), not Int32(5): the decoder
widens the whole marker byte as a signed 8-bit value instead of
sign-extending the low 7 bits.  The round trip on `[-64, 63]` therefore
holds only on the negative half (third conjunct shows −5 surviving). -/
theorem c2_int32_small_encoding :
    encodeValue (BiWiValue.int32 5) = [0x02, 0x85] ∧
    decodeValue [0x02, 0x85] = .ok (BiWiValue.int32 (-123), []) ∧
    decodeValue (encodeValue (BiWiValue.int32 (-5))) = .ok (BiWiValue.int32 (-5), []) :=
  ⟨rfl, rfl, rfl⟩

/-! ## Claim C3 -/

/-- C3 counterexample.  The claim says every compact header byte for field
ids 1–63 has its most significant bit clear; at id 32 the header byte is
`(32 << 2) | wire = 0x82`, whose MSB is set. -/
theorem c3_counterexample :
    encodeField 32 BiWiValue.null = [0x82, 0x00] ∧ (0x82 : Nat) &&& 0x80 ≠ 0 :=
  ⟨rfl, by decide⟩

/-- C3 amended.  For field ids 1–63 the header is exactly one byte,
`(id << 2) | (wire_hint & 3)`; its most significant bit is clear exactly
when the id is at most 31 (ids 32–63 set the MSB, so the decoder no longer
recognises them as compact). -/
theorem c3_compact_header (fieldId : Nat) (h1 : 1 ≤ fieldId) (h2 : fieldId ≤ 63)
    (v : BiWiValue) :
    encodeField fieldId v = ((fieldId <<< 2) ||| (wireType v &&& 3)) :: encodeValue v ∧
    (fieldId <<< 2) ||| (wireType v &&& 3) < 256 ∧
    (((fieldId <<< 2) ||| (wireType v &&& 3)) &&& 0x80 = 0 ↔ fieldId ≤ 31) := by
  have hw : wireType v &&& 3 < 4 := Nat.lt_of_le_of_lt Nat.and_le_right (by norm_num)
  have key : ∀ a, a < 64 → ∀ w, w < 4 →
      ((((a % 256) <<< 2) % 256) ||| w = (a <<< 2) ||| w ∧ (a <<< 2) ||| w < 256 ∧
        (((a <<< 2) ||| w) &&& 128 = 0 ↔ a ≤ 31)) := by decide
  obtain ⟨k1, k2, k3⟩ := key fieldId (by omega) (wireType v &&& 3) hw
  refine ⟨?_, k2, k3⟩
  rw [encodeField, if_pos ⟨by omega, h2⟩, k1]
  simp

/-- C3 witness: the amended statement at id 1 and value Null. -/
theorem c3_compact_header_witness :
    encodeField 1 BiWiValue.null
        = ((1 <<< 2) ||| (wireType BiWiValue.null &&& 3)) :: encodeValue BiWiValue.null ∧
    (1 <<< 2) ||| (wireType BiWiValue.null &&& 3) < 256 ∧
    (((1 <<< 2) ||| (wireType BiWiValue.null &&& 3)) &&& 0x80 = 0 ↔ (1 : Nat) ≤ 31) :=
  c3_compact_header 1 (by decide) (by decide) BiWiValue.null

/-! ## Claim C4 -/

/-- C4 counterexample.  The claim says `from_buffer` returns
`UnknownType(code)` when the first field has an unknown value-type code.
On `[0x06, 0x0A]` (field header for id 1, then type byte 0x0A) it instead
returns `Ok` with an empty message: `decode_all` swallows the error. -/
theorem c4_counterexample :
    fromBuffer [0x06, 0x0A] = .ok [] ∧ ∀ e, fromBuffer [0x06, 0x0A] ≠ .error e :=
  ⟨rfl, by intro e h; simp [fromBuffer] at h⟩

/-- C4 amended.  `decode_field` does report the errors the claim lists —
`UnknownType` at a position expecting a value type, `InvalidData` for
invalid UTF-8 or an unrecognised packed-array element type,
`InsufficientData` for reads past the buffer — but `from_buffer` swallows
every decoder error via `decode_all` and always returns `Ok`, yielding only
the fields decoded before the first malformed one. -/
theorem c4_errors_swallowed :
    (∀ l, ∃ m, fromBuffer l = .ok m) ∧
    decodeField [0x06, 0x0A] = .error (.unknownType 0x0A) ∧
    fromBuffer [0x06, 0x0A] = .ok [] ∧
    decodeField [0x06, 0x06, 0x81, 0xFF] = .error (.invalidData "invalid UTF-8 in small string") ∧
    fromBuffer [0x06, 0x06, 0x81, 0xFF] = .ok [] ∧
    decodeField [0x06, 0x04, 0x00] = .error (.insufficientData "float32") ∧
    fromBuffer [0x06, 0x04, 0x00] = .ok [] ∧
    decodeField [0x06, 0x88, 0x07, 0x00] = .error (.invalidData "unknown packed array element type") ∧
    fromBuffer [0x06, 0x88, 0x07, 0x00] = .ok [] :=
  ⟨fun l => ⟨_, rfl⟩, rfl, rfl, rfl, rfl, rfl, rfl, rfl, rfl⟩

/-! ## Claim C5 -/

/-- C5 counterexample.  The claim says `add_fragment` returns the complete
buffer exactly when every slot from FIRST through LAST is filled and `None`
otherwise.  Adding the single fragment index 0 with `is_last = false` (so
the LAST fragment has not arrived) already returns `Some`: the source
ignores the `_is_first`/`_is_last` arguments. -/
theorem c5_counterexample :
    (addFragment FragmentReassembler.new 1 0 true false [7]).1 = some [7] := rfl

/-! ## Claim C6 -/

/-- C6.  The claim says that after a fresh `record_received(seq)` the
piggyback ack number equals the highest sequence received so far.  The
field starts at `u32::MAX` and is updated with `max`, so it remains
`u32::MAX` forever — the source's own comment "Start at max so first real
ack is 0" is unsatisfiable under `max`.  After receiving sequence 5 the
piggyback ack stamped into created packets is 4294967295, not 5. -/
theorem c6_piggyback_ack_stuck :
    (recordReceived 5 PacketManager.new).1 = true ∧
    (recordReceived 5 PacketManager.new).2.lastAckReceived = 2 ^ 32 - 1 ∧
    (recordReceived 5 PacketManager.new).2.lastAckReceived ≠ 5 ∧
    ((createPackets 0 [1] (recordReceived 5 PacketManager.new).2).1.map UdpPacket.ackNumber)
      = [2 ^ 32 - 1] :=
  ⟨rfl, rfl, by decide, rfl⟩

/-! ## Claim C7 -/

/-- Bitwise or of disjoint ranges is addition: a value below `2 ^ n` or-ed
with a left shift by `n`. -/
theorem lor_shiftLeft_eq_add (a b n : Nat) (h : a < 2 ^ n) :
    a ||| b <<< n = a + b <<< n := by
  apply Nat.eq_of_testBit_eq
  intro j
  have key := Nat.testBit_mul_pow_two_add b h j
  have hsl : (b <<< n).testBit j = (decide (j ≥ n) && b.testBit (j - n)) :=
    Nat.testBit_shiftLeft b
  rw [Nat.testBit_lor, hsl, Nat.shiftLeft_eq, Nat.add_comm a (b * 2 ^ n),
    Nat.mul_comm b (2 ^ n), key]
  rcases lt_or_ge j n with hj | hj
  · simp [hj, Nat.not_le.mpr hj]
  · have ha : a.testBit j = false :=
      Nat.testBit_lt_two_pow (lt_of_lt_of_le h (Nat.pow_le_pow_right (by omega) hj))
    simp [ha, hj, Nat.not_lt.mpr hj]

/-- Masking with `0x7f` is reduction mod 128. -/
theorem and_127_eq_mod (x : Nat) : x &&& 127 = x % 128 := by
  have h := Nat.and_pow_two_sub_one_eq_mod x 7
  norm_num at h
  exact h

/-- Byte-level facts about the varint continuation bit, for bytes whose low
part is below 128. -/
theorem byteFacts : ∀ x, x < 128 →
    (x &&& 128 = 0 ∧ (x ||| 128) &&& 128 ≠ 0 ∧ (x ||| 128) &&& 127 = x) := by decide

/-- Disjoint or in multiplicative form. -/
theorem lor_mul_pow (a b n : Nat) (h : a < 2 ^ n) :
    a ||| b * 2 ^ n = a + b * 2 ^ n := by
  have hkey := lor_shiftLeft_eq_add a b n h
  rwa [Nat.shiftLeft_eq] at hkey

/-- One-step unfolding of the varint continuation loop. -/
theorem readVarintLoop_cons (value shift b : Nat) (l : List Nat) :
    readVarintLoop value shift (b :: l) =
      if b &&& 0x80 = 0 then .ok (value ||| (((b &&& 0x7f) <<< shift) % 2 ^ 32), l)
      else readVarintLoop (value ||| (((b &&& 0x7f) <<< shift) % 2 ^ 32)) (shift + 7) l := rfl

/-- One-step unfolding of `read_varint`. -/
theorem readVarint_cons (b : Nat) (l : List Nat) :
    readVarint (b :: l) =
      if b &&& 0x80 = 0 then .ok (b, l) else readVarintLoop (b &&& 0x7f) 7 l := rfl

/-- The varint continuation loop inverts `writeVarintCore`: reading the
bytes of `u` into an accumulator holding `acc` below the current shift
returns `acc + u * 2 ^ shift` and leaves the trailing bytes unread. -/
theorem readVarintLoop_core (u : Nat) :
    ∀ acc shift rest, acc < 2 ^ shift → u < 2 ^ (32 - shift) →
      readVarintLoop acc shift (writeVarintCore u ++ rest)
        = .ok (acc + u * 2 ^ shift, rest) := by
  induction u using Nat.strong_induction_on with
  | _ u ih =>
    intro acc shift rest hacc hu
    rw [writeVarintCore]
    split_ifs with h
    · have h1 : u &&& 127 = u := by rw [and_127_eq_mod]; omega
      have h2 : u &&& 128 = 0 := (byteFacts u h).1
      have hlt : u * 2 ^ shift < 2 ^ 32 := by
        rcases le_or_lt shift 32 with hs | hs
        · calc u * 2 ^ shift < 2 ^ (32 - shift) * 2 ^ shift :=
                mul_lt_mul_of_pos_right hu (Nat.pos_pow_of_pos shift (by norm_num))
          _ = 2 ^ 32 := by rw [← Nat.pow_add]; congr 1; omega
        · have hu0 : u = 0 := by
            have h0 : (32 : Nat) - shift = 0 := by omega
            rw [h0] at hu
            omega
          subst hu0
          simp
      rw [List.singleton_append, readVarintLoop_cons, h1, if_pos h2,
        Nat.shiftLeft_eq, h1, Nat.mod_eq_of_lt hlt, lor_mul_pow acc u shift hacc]
    · have hm : u % 128 < 128 := Nat.mod_lt _ (by norm_num)
      have hb1 : (u &&& 127) ||| 128 = (u % 128) ||| 128 := by rw [and_127_eq_mod]
      have hb2 : ¬ ((u % 128) ||| 128) &&& 128 = 0 := (byteFacts (u % 128) hm).2.1
      have hb3 : ((u % 128) ||| 128) &&& 127 = u % 128 := (byteFacts (u % 128) hm).2.2
      have hshift : shift + 7 ≤ 32 := by
        by_contra hc
        have hsmall : u < 2 ^ 7 :=
          lt_of_lt_of_le hu (Nat.pow_le_pow_right (by norm_num) (by omega))
        norm_num at hsmall
        omega
      have hpow : (2 : Nat) ^ (shift + 7) = 2 ^ shift * 128 := by
        rw [Nat.pow_add]
      have hcontrib : (u % 128) * 2 ^ shift < 2 ^ 32 := by
        calc (u % 128) * 2 ^ shift < 128 * 2 ^ shift :=
              mul_lt_mul_of_pos_right hm (Nat.pos_pow_of_pos shift (by norm_num))
        _ = 2 ^ (shift + 7) := by rw [hpow]; ring
        _ ≤ 2 ^ 32 := Nat.pow_le_pow_right (by norm_num) hshift
      have hacc' : acc + (u % 128) * 2 ^ shift < 2 ^ (shift + 7) := by
        have hle : (u % 128) * 2 ^ shift ≤ 127 * 2 ^ shift :=
          Nat.mul_le_mul_right _ (by omega)
        have hp : acc + (u % 128) * 2 ^ shift < 128 * 2 ^ shift := by
          have := hacc
          nlinarith
        rw [hpow]
        nlinarith
      have hdiv : u >>> 7 = u / 128 := by
        rw [Nat.shiftRight_eq_div_pow]
      have hulow : u >>> 7 < 2 ^ (32 - (shift + 7)) := by
        rw [hdiv]
        have hsplit : (2 : Nat) ^ (32 - shift) = 2 ^ (32 - (shift + 7)) * 128 := by
          have h7 : (32 : Nat) - shift = (32 - (shift + 7)) + 7 := by omega
          rw [h7, Nat.pow_add]
        rw [Nat.div_lt_iff_lt_mul (by norm_num : (0 : Nat) < 128)]
        calc u < 2 ^ (32 - shift) := hu
        _ = 2 ^ (32 - (shift + 7)) * 128 := hsplit
      rw [List.cons_append, readVarintLoop_cons, hb1, hb3, if_neg hb2,
        Nat.shiftLeft_eq, Nat.mod_eq_of_lt hcontrib, lor_mul_pow acc (u % 128) shift hacc,
        ih (u >>> 7) (by rw [hdiv]; omega) (acc + (u % 128) * 2 ^ shift) (shift + 7)
          rest hacc' hulow]
      congr 2
      rw [hdiv, hpow]
      have hsplit : u % 128 + 128 * (u / 128) = u := Nat.mod_add_div u 128
      nlinarith [hsplit]

/-- Round trip of `write_varint` through `read_varint`, with arbitrary
trailing bytes left unread. -/
theorem readVarint_writeVarint (u : Nat) (hu : u < 2 ^ 32) (rest : List Nat) :
    readVarint (writeVarint u ++ rest) = .ok (u, rest) := by
  rw [writeVarint]
  split_ifs with h1 h2
  · rw [List.singleton_append, readVarint_cons, if_pos (byteFacts u h1).1]
  · have hm : u % 128 < 128 := Nat.mod_lt _ (by norm_num)
    have hd : u >>> 7 = u / 128 := by rw [Nat.shiftRight_eq_div_pow]
    have hd128 : u / 128 < 128 := by omega
    have hb1 : (u &&& 127) ||| 128 = (u % 128) ||| 128 := by rw [and_127_eq_mod]
    have hb2 : ¬ ((u % 128) ||| 128) &&& 128 = 0 := (byteFacts (u % 128) hm).2.1
    have hb3 : ((u % 128) ||| 128) &&& 127 = u % 128 := (byteFacts (u % 128) hm).2.2
    have hsecond : (u >>> 7) &&& 127 = u / 128 := by
      rw [hd, and_127_eq_mod, Nat.mod_eq_of_lt hd128]
    have hsecond2 : (u / 128) &&& 127 = u / 128 := by
      rw [and_127_eq_mod, Nat.mod_eq_of_lt hd128]
    have hsecond0 : (u / 128) &&& 128 = 0 := (byteFacts (u / 128) hd128).1
    have hcontrib : (u / 128) * 2 ^ 7 < 2 ^ 32 := by
      have hlit : (2 : Nat) ^ 7 = 128 := by norm_num
      have hlit32 : (2 : Nat) ^ 32 = 4294967296 := by norm_num
      rw [hlit, hlit32]
      omega
    have hm7 : u % 128 < 2 ^ 7 := by
      have hlit : (2 : Nat) ^ 7 = 128 := by norm_num
      rw [hlit]
      exact hm
    rw [List.cons_append, List.singleton_append, readVarint_cons, hb1, if_neg hb2,
      readVarintLoop_cons, hb3, hsecond, if_pos hsecond0, hsecond2,
      Nat.shiftLeft_eq, Nat.mod_eq_of_lt hcontrib, lor_mul_pow (u % 128) (u / 128) 7 hm7]
    congr 2
    have hlit : (2 : Nat) ^ 7 = 128 := by norm_num
    rw [hlit]
    omega
  · rw [writeVarintCore, dif_neg (by omega)]
    have hm : u % 128 < 128 := Nat.mod_lt _ (by norm_num)
    have hb1 : (u &&& 127) ||| 128 = (u % 128) ||| 128 := by rw [and_127_eq_mod]
    have hb2 : ¬ ((u % 128) ||| 128) &&& 128 = 0 := (byteFacts (u % 128) hm).2.1
    have hb3 : ((u % 128) ||| 128) &&& 127 = u % 128 := (byteFacts (u % 128) hm).2.2
    have hu7 : u >>> 7 < 2 ^ (32 - 7) := by
      rw [Nat.shiftRight_eq_div_pow]
      rw [Nat.div_lt_iff_lt_mul (by norm_num : (0 : Nat) < 2 ^ 7)]
      have hlit : (2 : Nat) ^ (32 - 7) * 2 ^ 7 = 4294967296 := by norm_num
      rw [hlit]
      have hlit32 : (2 : Nat) ^ 32 = 4294967296 := by norm_num
      omega
    have hm7 : u % 128 < 2 ^ 7 := by
      have hlit : (2 : Nat) ^ 7 = 128 := by norm_num
      rw [hlit]
      exact hm
    rw [List.cons_append, readVarint_cons, hb1, if_neg hb2, hb3,
      readVarintLoop_core (u >>> 7) (u % 128) 7 rest hm7 hu7]
    congr 2
    rw [Nat.shiftRight_eq_div_pow]
    have hlit : (2 : Nat) ^ 7 = 128 := by norm_num
    rw [hlit]
    omega

/-- Byte length of the general varint loop: one byte per seven significant
bits. -/
theorem writeVarintCore_length (u : Nat) :
    (writeVarintCore u).length = Nat.log2 u / 7 + 1 := by
  induction u using Nat.strong_induction_on with
  | _ u ih =>
    rw [writeVarintCore]
    split_ifs with h
    · simp only [List.length_cons, List.length_nil]
      have hlog : Nat.log2 u < 7 := by
        rcases Nat.eq_zero_or_pos u with h0 | h0
        · simp [h0, Nat.log2]
        · exact (Nat.log2_lt (by omega)).2 (by norm_num; omega)
      omega
    · simp only [List.length_cons]
      have hd : u >>> 7 = u / 128 := by rw [Nat.shiftRight_eq_div_pow]
      rw [ih (u >>> 7) (by rw [hd]; omega)]
      have hlogdiv : Nat.log2 (u >>> 7) = Nat.log2 u - 7 := by
        rw [hd, Nat.log2_eq_log_two, Nat.log2_eq_log_two]
        have heq : u / 128 = u / 2 / 2 / 2 / 2 / 2 / 2 / 2 := by omega
        rw [heq, Nat.log_div_base, Nat.log_div_base, Nat.log_div_base, Nat.log_div_base,
          Nat.log_div_base, Nat.log_div_base, Nat.log_div_base]
        omega
      have hlog7 : 7 ≤ Nat.log2 u := (Nat.le_log2 (by omega)).2 (by norm_num; omega)
      omega

/-- Byte length of `write_varint`: `⌈bits(u)/7⌉` with one byte for zero. -/
theorem writeVarint_length (u : Nat) :
    (writeVarint u).length = (Nat.log2 u + 1 + 6) / 7 := by
  rw [writeVarint]
  split_ifs with h1 h2
  · simp only [List.length_cons, List.length_nil]
    have hlog : Nat.log2 u < 7 := by
      rcases Nat.eq_zero_or_pos u with h0 | h0
      · simp [h0, Nat.log2]
      · exact (Nat.log2_lt (by omega)).2 (by norm_num; omega)
    omega
  · simp only [List.length_cons, List.length_nil]
    have hlog7 : 7 ≤ Nat.log2 u := (Nat.le_log2 (by omega)).2 (by norm_num; omega)
    have hlog14 : Nat.log2 u < 14 := (Nat.log2_lt (by omega)).2 (by norm_num; omega)
    omega
  · rw [writeVarintCore_length]
    omega

/-- C7.  For every `u` in `[0, 2^32)`, `read_varint(write_varint(u)) = u`,
and the encoded length is `⌈bits(u)/7⌉` bytes (`bits(u) = log2(u) + 1`),
with exactly one byte for `u = 0`. -/
theorem c7_varint_roundtrip (u : Nat) (hu : u < 2 ^ 32) :
    readVarint (writeVarint u) = .ok (u, []) ∧
    (writeVarint u).length = (Nat.log2 u + 1 + 6) / 7 ∧
    (u = 0 → (writeVarint u).length = 1) := by
  refine ⟨?_, writeVarint_length u, ?_⟩
  · have h := readVarint_writeVarint u hu []
    simpa using h
  · intro h0
    subst h0
    rfl

/-- C7 witness: the round trip and length at `u = 300`. -/
theorem c7_varint_roundtrip_witness :
    readVarint (writeVarint 300) = .ok (300, []) ∧
    (writeVarint 300).length = (Nat.log2 300 + 1 + 6) / 7 ∧
    ((300 : Nat) = 0 → (writeVarint 300).length = 1) :=
  c7_varint_roundtrip 300 (by norm_num)

/-! ## Claim C8 -/

/-- `MAX_PAYLOAD_SIZE` evaluates to 1267. -/
theorem max_payload_eq : MAX_PAYLOAD_SIZE = 1267 := rfl

/-- Unfolding of `fragLoop` when the remaining data fits in one chunk. -/
theorem fragLoop_le (now : Nat) (isFirst : Bool) (data : List Nat) (pm : PacketManager)
    (h : data.length ≤ MAX_PAYLOAD_SIZE) :
    fragLoop now isFirst data pm =
      ([⟨.data, pm.sequenceNumber, pm.lastAckReceived,
          (if isFirst then FRAG_FIRST else 0) ||| FRAG_LAST, data⟩],
        { pm with
          pendingAcks := insertPending pm.pendingAcks pm.sequenceNumber
            ⟨⟨.data, pm.sequenceNumber, pm.lastAckReceived,
              (if isFirst then FRAG_FIRST else 0) ||| FRAG_LAST, data⟩, now, 0⟩
          sequenceNumber := (pm.sequenceNumber + 1) % 2 ^ 32 }) := by
  rw [fragLoop, dif_pos h]

/-- The recursive state after emitting one 1267-byte chunk. -/
def fragNext (now : Nat) (isFirst : Bool) (data : List Nat) (pm : PacketManager) :
    PacketManager :=
  { pm with
    pendingAcks := insertPending pm.pendingAcks pm.sequenceNumber
      ⟨⟨.data, pm.sequenceNumber, pm.lastAckReceived,
        (if isFirst then FRAG_FIRST else 0) ||| 0, data.take MAX_PAYLOAD_SIZE⟩, now, 0⟩
    sequenceNumber := (pm.sequenceNumber + 1) % 2 ^ 32 }

/-- Unfolding of `fragLoop` when another chunk follows. -/
theorem fragLoop_gt (now : Nat) (isFirst : Bool) (data : List Nat) (pm : PacketManager)
    (h : ¬ data.length ≤ MAX_PAYLOAD_SIZE) :
    fragLoop now isFirst data pm =
      (⟨.data, pm.sequenceNumber, pm.lastAckReceived,
          (if isFirst then FRAG_FIRST else 0) ||| 0, data.take MAX_PAYLOAD_SIZE⟩ ::
        (fragLoop now false (data.drop MAX_PAYLOAD_SIZE)
          (fragNext now isFirst data pm)).1,
        (fragLoop now false (data.drop MAX_PAYLOAD_SIZE)
          (fragNext now isFirst data pm)).2) := by
  rw [fragLoop, dif_neg h]
  rfl

/-- Head of a `cons` through `List.get` at an explicit `Fin.mk` zero. -/
theorem get_cons_mk_zero {α : Type _} (a : α) (l : List α) (h : 0 < (a :: l).length) :
    (a :: l).get ⟨0, h⟩ = a := rfl

/-- Tail step of `List.get` at an explicit `Fin.mk` successor. -/
theorem get_cons_mk_succ {α : Type _} (a : α) (l : List α) (j : Nat)
    (h : j + 1 < (a :: l).length) :
    (a :: l).get ⟨j + 1, h⟩
      = l.get ⟨j, by simp only [List.length_cons] at h; omega⟩ := rfl

/-- Full characterisation of the fragmenting loop: packet count is the
ceiling of the byte count over 1267, payloads concatenate back to the data,
every packet is a Data packet with consecutive wrapping sequences, FIRST is
flagged only on the head (when requested) and LAST only on the final
chunk. -/
theorem fragLoop_spec (now : Nat) :
    ∀ N, ∀ data : List Nat, ∀ pm : PacketManager, ∀ isFirst : Bool,
      data.length ≤ N → data.length ≠ 0 → pm.sequenceNumber < 2 ^ 32 →
      ((fragLoop now isFirst data pm).1.length
          = (data.length + (MAX_PAYLOAD_SIZE - 1)) / MAX_PAYLOAD_SIZE) ∧
      (((fragLoop now isFirst data pm).1.map UdpPacket.payload).flatten = data) ∧
      (∀ i (h : i < (fragLoop now isFirst data pm).1.length),
        ((fragLoop now isFirst data pm).1.get ⟨i, h⟩).packetType = .data ∧
        ((fragLoop now isFirst data pm).1.get ⟨i, h⟩).sequence
            = (pm.sequenceNumber + i) % 2 ^ 32 ∧
        ((fragLoop now isFirst data pm).1.get ⟨i, h⟩).flags
            = (if i = 0 ∧ isFirst = true then FRAG_FIRST else 0)
              ||| (if i = (fragLoop now isFirst data pm).1.length - 1 then FRAG_LAST
                   else 0)) := by
  intro N
  induction N with
  | zero =>
    intro data pm isFirst hN hne hseq
    omega
  | succ N ih =>
    intro data pm isFirst hN hne hseq
    by_cases hlen : data.length ≤ MAX_PAYLOAD_SIZE
    · rw [fragLoop_le now isFirst data pm hlen]
      dsimp only
      rw [max_payload_eq] at hlen
      refine ⟨?_, ?_, ?_⟩
      · simp only [List.length_cons, List.length_nil, max_payload_eq]
        omega
      · simp
      · intro i h
        simp only [List.length_cons, List.length_nil] at h
        have hi : i = 0 := by omega
        subst hi
        refine ⟨rfl, ?_, ?_⟩
        · show pm.sequenceNumber = (pm.sequenceNumber + 0) % 2 ^ 32
          omega
        · cases isFirst <;> rfl
    · rw [fragLoop_gt now isFirst data pm hlen]
      dsimp only
      rw [max_payload_eq] at hlen
      have hdrop : (data.drop MAX_PAYLOAD_SIZE).length = data.length - 1267 := by
        simp [max_payload_eq]
      have hN' : (data.drop MAX_PAYLOAD_SIZE).length ≤ N := by omega
      have hne' : (data.drop MAX_PAYLOAD_SIZE).length ≠ 0 := by omega
      have hseq' : (fragNext now isFirst data pm).sequenceNumber < 2 ^ 32 := by
        simp only [fragNext]
        exact Nat.mod_lt _ (Nat.pos_pow_of_pos 32 two_pos)
      obtain ⟨ihlen, ihflat, ihget⟩ :=
        ih (data.drop MAX_PAYLOAD_SIZE) (fragNext now isFirst data pm) false hN' hne' hseq'
      have hseq2 : (fragNext now isFirst data pm).sequenceNumber
          = (pm.sequenceNumber + 1) % 2 ^ 32 := rfl
      have htail1 : 1 ≤ (fragLoop now false (data.drop MAX_PAYLOAD_SIZE)
          (fragNext now isFirst data pm)).1.length := by
        rw [ihlen, hdrop, max_payload_eq]
        omega
      refine ⟨?_, ?_, ?_⟩
      · simp only [List.length_cons, ihlen, hdrop]
        simp only [max_payload_eq]
        omega
      · simp only [List.map_cons, List.flatten_cons, ihflat]
        exact List.take_append_drop _ data
      · intro i h
        cases i with
        | zero =>
          refine ⟨rfl, ?_, ?_⟩
          · show pm.sequenceNumber = (pm.sequenceNumber + 0) % 2 ^ 32
            omega
          · rw [get_cons_mk_zero]
            simp only [List.length_cons, Nat.add_sub_cancel]
            rw [if_neg (show ¬ ((0 : Nat) = (fragLoop now false (data.drop MAX_PAYLOAD_SIZE)
                (fragNext now isFirst data pm)).1.length) from by omega)]
            cases isFirst <;> rfl
        | succ j =>
          simp only [List.length_cons] at h
          obtain ⟨ht, hs, hf⟩ := ihget j (by omega)
          refine ⟨?_, ?_, ?_⟩
          · rw [get_cons_mk_succ]
            exact ht
          · rw [get_cons_mk_succ, hs, hseq2, Nat.mod_add_mod]
            congr 1
            omega
          · rw [get_cons_mk_succ, hf]
            have hfalse : ¬ (j = 0 ∧ false = true) := by simp
            have hfalse2 : ¬ (j + 1 = 0 ∧ isFirst = true) := by omega
            rw [if_neg hfalse, if_neg hfalse2]
            simp only [List.length_cons]
            by_cases hj : j = (fragLoop now false (data.drop MAX_PAYLOAD_SIZE)
                (fragNext now isFirst data pm)).1.length - 1
            · rw [if_pos hj, if_pos (by omega)]
            · rw [if_neg hj, if_neg (by omega)]

/-- C8.  `create_packets` emits one Data packet flagged FIRST|LAST when the
buffer fits in 1267 bytes; otherwise it emits `⌈|B|/1267⌉` Data packets
whose payloads concatenate to `B`, with FIRST only on the first packet,
LAST only on the last, flags 0 in between, and consecutive wrapping 32-bit
sequence numbers. -/
theorem c8_create_packets (now : Nat) (data : List Nat) (pm : PacketManager)
    (hseq : pm.sequenceNumber < 2 ^ 32) :
    (data.length ≤ 1267 →
      (createPackets now data pm).1
        = [⟨.data, pm.sequenceNumber, pm.lastAckReceived, FRAG_FIRST ||| FRAG_LAST, data⟩]) ∧
    (1267 < data.length →
      (createPackets now data pm).1.length = (data.length + 1266) / 1267 ∧
      (((createPackets now data pm).1.map UdpPacket.payload).flatten = data) ∧
      (∀ i (h : i < (createPackets now data pm).1.length),
        ((createPackets now data pm).1.get ⟨i, h⟩).packetType = .data ∧
        ((createPackets now data pm).1.get ⟨i, h⟩).sequence
            = (pm.sequenceNumber + i) % 2 ^ 32 ∧
        ((createPackets now data pm).1.get ⟨i, h⟩).flags
          = (if i = 0 then FRAG_FIRST else 0)
            ||| (if i = (createPackets now data pm).1.length - 1 then FRAG_LAST else 0))) := by
  constructor
  · intro hle
    rw [createPackets, if_pos (by rw [max_payload_eq]; omega)]
  · intro hgt
    have hx : ¬ data.length ≤ MAX_PAYLOAD_SIZE := by rw [max_payload_eq]; omega
    rw [createPackets, if_neg hx]
    obtain ⟨hlen, hflat, hget⟩ :=
      fragLoop_spec now data.length data pm true le_rfl (by omega) hseq
    refine ⟨?_, hflat, ?_⟩
    · rw [hlen, max_payload_eq]
    · intro i h
      obtain ⟨ht, hs, hf⟩ := hget i h
      refine ⟨ht, hs, ?_⟩
      rw [hf]
      simp

/-- C8 witness: a 2600-byte buffer splits into three Data packets whose
payloads concatenate back to the buffer. -/
theorem c8_create_packets_witness :
    1267 < (List.replicate 2600 (0 : Nat)).length ∧
    ((createPackets 0 (List.replicate 2600 0) PacketManager.new).1.map
        UdpPacket.payload).flatten = List.replicate 2600 0 ∧
    (createPackets 0 (List.replicate 2600 0) PacketManager.new).1.length = 3 := by
  have h := (c8_create_packets 0 (List.replicate 2600 0) PacketManager.new
    (by decide)).2 (by rw [List.length_replicate]; norm_num)
  refine ⟨by rw [List.length_replicate]; norm_num, h.2.1, ?_⟩
  rw [h.1, List.length_replicate]

/-! ## Claim C5, amended -/

/-- Reading the padded vector at any index through `getD` sees exactly the
original vector: the padding value is the default. -/
theorem padFrags_getD (v : List (Option (List Nat))) (n j : Nat) :
    (padFrags v n).getD j none = v.getD j none := by
  unfold padFrags
  rcases lt_or_ge j v.length with h | h
  · exact List.getD_append _ _ _ _ h
  · rw [List.getD_append_right _ _ _ _ h, List.getD_eq_default _ _ h]
    rcases lt_or_ge (j - v.length) (n - v.length) with h2 | h2
    · rw [List.getD_eq_getElem?_getD, List.getElem?_replicate, if_pos h2]
      rfl
    · exact List.getD_eq_default _ _ (by simpa using h2)

/-- Length of the padded vector. -/
theorem padFrags_length (v : List (Option (List Nat))) (n : Nat) :
    (padFrags v n).length = max n v.length := by
  simp [padFrags]
  omega

/-- Length of the slot vector after `add_fragment`'s insertion step. -/
theorem fragsAfterAdd_length (v : List (Option (List Nat))) (idx : Nat) (d : List Nat) :
    (fragsAfterAdd v idx d).length = max (idx + 1) v.length := by
  unfold fragsAfterAdd
  split_ifs <;> simp [padFrags_length]

/-- Pointwise description of the slot vector after the insertion step:
slot `idx` receives the data only if it was empty, every other slot is
unchanged. -/
theorem fragsAfterAdd_getD (v : List (Option (List Nat))) (idx : Nat) (d : List Nat)
    (j : Nat) :
    (fragsAfterAdd v idx d).getD j none
      = if j = idx then
          (if (v.getD idx none).isNone then some d else v.getD idx none)
        else v.getD j none := by
  have hplen : idx < (padFrags v (idx + 1)).length := by
    rw [padFrags_length]
    omega
  have hpget : ∀ m, (padFrags v (idx + 1)).getD m none = v.getD m none :=
    fun m => padFrags_getD v (idx + 1) m
  by_cases hnone : (v.getD idx none).isNone = true
  · rw [fragsAfterAdd, if_pos (by rw [hpget idx]; exact hnone)]
    by_cases hj : j = idx
    · subst hj
      rw [if_pos rfl, if_pos hnone]
      rw [List.getD_eq_getElem?_getD, List.getElem?_set, if_pos rfl, if_pos hplen]
      rfl
    · rw [if_neg hj]
      rw [List.getD_eq_getElem?_getD, List.getElem?_set, if_neg (fun hc => hj hc.symm),
        ← List.getD_eq_getElem?_getD, hpget j]
  · rw [fragsAfterAdd, if_neg (by rw [hpget idx]; exact hnone)]
    by_cases hj : j = idx
    · subst hj
      rw [if_pos rfl, if_neg hnone, hpget j]
    · rw [if_neg hj, hpget j]

/-- `all isSome` through indexed reads. -/
theorem all_isSome_iff (v : List (Option (List Nat))) :
    (v.all Option.isSome = true) ↔
      ∀ j, j < v.length → ((v.getD j none).isSome = true) := by
  induction v with
  | nil => simp
  | cons x xs ih =>
    rw [List.all_cons, Bool.and_eq_true, ih]
    constructor
    · rintro ⟨hx, hxs⟩ j hj
      cases j with
      | zero => exact hx
      | succ m => exact hxs m (by simpa using hj)
    · intro hall
      exact ⟨hall 0 (by simp),
        fun m hm => hall (m + 1) (by simpa using hm)⟩

/-- Reading back a just-stored fragment vector. -/
theorem getFrags_setFrags (st : FragmentReassembler) (messageId : Nat)
    (v : List (Option (List Nat))) :
    getFrags (setFrags st messageId v) messageId = v := by
  simp [getFrags, setFrags]

/-- C5 amended.  `add_fragment` ignores its FIRST/LAST flag arguments
entirely (first conjunct).  It returns the reassembled buffer exactly when,
after this insertion, every slot from index 0 through the highest index
seen so far is filled — equivalently, when the new index is at most the
stored vector's length and every other stored slot is already filled
(second conjunct); the FIRST/LAST positions play no role, so a FIRST-only
prefix already "completes".  A slot that is already filled keeps its first
value and the new data is discarded (third conjunct), and an incomplete add
buffers the fragment in its slot (fourth conjunct). -/
theorem c5_add_fragment (st : FragmentReassembler) (messageId idx : Nat)
    (a b a2 b2 : Bool) (data : List Nat) :
    (addFragment st messageId idx a b data = addFragment st messageId idx a2 b2 data) ∧
    ((addFragment st messageId idx a b data).1.isSome = true ↔
      (idx ≤ (getFrags st messageId).length ∧
        ∀ j, j < (getFrags st messageId).length → j ≠ idx →
          (((getFrags st messageId).getD j none).isSome = true))) ∧
    (∀ d2, ((getFrags st messageId).getD idx none).isSome = true →
      addFragment st messageId idx a b data = addFragment st messageId idx a b d2) ∧
    ((addFragment st messageId idx a b data).1 = none →
      (getFrags (addFragment st messageId idx a b data).2 messageId).getD idx none
        = some (((getFrags st messageId).getD idx none).getD data)) := by
  have hUlen : (fragsAfterAdd (getFrags st messageId) idx data).length
      = max (idx + 1) (getFrags st messageId).length :=
    fragsAfterAdd_length _ idx data
  have hUgetD := fragsAfterAdd_getD (getFrags st messageId) idx data
  have hUne : (fragsAfterAdd (getFrags st messageId) idx data).isEmpty = false := by
    cases hu : fragsAfterAdd (getFrags st messageId) idx data with
    | nil =>
      rw [hu] at hUlen
      simp at hUlen
      omega
    | cons y ys => rfl
  have hiso : (addFragment st messageId idx a b data).1.isSome
      = (fragsAfterAdd (getFrags st messageId) idx data).all Option.isSome := by
    rw [addFragment]
    cases hall : (fragsAfterAdd (getFrags st messageId) idx data).all Option.isSome with
    | true =>
      rw [if_pos (by simp [hUne])]
      rfl
    | false =>
      rw [if_neg (by simp [hUne])]
      rfl
  refine ⟨rfl, ?_, ?_, ?_⟩
  · rw [hiso, all_isSome_iff]
    constructor
    · intro hall
      constructor
      · by_contra hgt
        have hj := hall (getFrags st messageId).length (by omega)
        rw [hUgetD (getFrags st messageId).length,
          if_neg (by omega), List.getD_eq_default _ _ le_rfl] at hj
        simp at hj
      · intro j hj hne
        have hx := hall j (by omega)
        rwa [hUgetD j, if_neg hne] at hx
    · rintro ⟨hle, hforall⟩ j hj
      rw [hUgetD j]
      by_cases hje : j = idx
      · rw [if_pos hje]
        cases hx : (getFrags st messageId).getD idx none with
        | none => simp
        | some s => simp [hx]
      · rw [if_neg hje]
        rw [hUlen] at hj
        exact hforall j (by omega) hje
  · intro d2 hfill
    have hnone : ((getFrags st messageId).getD idx none).isNone = false := by
      cases hx : (getFrags st messageId).getD idx none with
      | none => rw [hx] at hfill; simp at hfill
      | some s => rfl
    have heq : fragsAfterAdd (getFrags st messageId) idx data
        = fragsAfterAdd (getFrags st messageId) idx d2 := by
      unfold fragsAfterAdd
      rw [padFrags_getD, hnone]
      simp
    rw [addFragment, addFragment, heq]
  · intro hnoneRes
    have hc : ¬ ((!(fragsAfterAdd (getFrags st messageId) idx data).isEmpty
        && (fragsAfterAdd (getFrags st messageId) idx data).all Option.isSome) = true) := by
      intro hc
      rw [addFragment, if_pos hc] at hnoneRes
      simp at hnoneRes
    rw [addFragment, if_neg hc]
    show (getFrags (setFrags st messageId
        (fragsAfterAdd (getFrags st messageId) idx data)) messageId).getD idx none = _
    rw [getFrags_setFrags, hUgetD idx, if_pos rfl]
    cases hx : (getFrags st messageId).getD idx none with
    | none => simp
    | some s => simp

/-- C5 amended, witness: with slot 1 already holding `[9]`, adding `[5]` or
`[6]` at the filled slot gives identical results (first value wins). -/
theorem c5_add_fragment_witness :
    addFragment (addFragment FragmentReassembler.new 1 1 false true [9]).2 1 1 false true [5]
      = addFragment (addFragment FragmentReassembler.new 1 1 false true [9]).2 1 1 false true [6] :=
  (c5_add_fragment (addFragment FragmentReassembler.new 1 1 false true [9]).2
    1 1 false true false true [5]).2.2.1 [6] (by rfl)

/-! ## Claim C10 -/

/-- The varint continuation loop consumes at least one byte on success. -/
theorem readVarintLoop_suffix (l : List Nat) :
    ∀ value shift u r, readVarintLoop value shift l = .ok (u, r) → r.length < l.length := by
  induction l with
  | nil =>
    intro value shift u r h
    simp [readVarintLoop] at h
  | cons b rest ih =>
    intro value shift u r h
    rw [readVarintLoop_cons] at h
    split_ifs at h with hb
    · rw [Except.ok.injEq, Prod.mk.injEq] at h
      obtain ⟨h1, h2⟩ := h
      subst h2
      simp
    · have := ih _ _ _ _ h
      simp
      omega

/-- `read_varint` consumes at least one byte on success. -/
theorem readVarint_suffix (l : List Nat) (u : Nat) (r : List Nat)
    (h : readVarint l = .ok (u, r)) : r.length < l.length := by
  cases l with
  | nil => simp [readVarint] at h
  | cons b rest =>
    rw [readVarint_cons] at h
    split_ifs at h with hb
    · rw [Except.ok.injEq, Prod.mk.injEq] at h
      obtain ⟨h1, h2⟩ := h
      subst h2
      simp
    · have := readVarintLoop_suffix rest _ _ _ _ h
      simp
      omega

/-- One-step unfolding of the 64-bit varint loop. -/
theorem readVarint64Loop_cons (value shift b : Nat) (l : List Nat) :
    readVarint64Loop value shift (b :: l) =
      if b &&& 0x80 = 0 then .ok (value ||| (((b &&& 0x7f) <<< shift) % 2 ^ 64), l)
      else readVarint64Loop (value ||| (((b &&& 0x7f) <<< shift) % 2 ^ 64)) (shift + 7) l := rfl

/-- The 64-bit varint loop consumes at least one byte on success. -/
theorem readVarint64Loop_suffix (l : List Nat) :
    ∀ value shift u r, readVarint64Loop value shift l = .ok (u, r) → r.length < l.length := by
  induction l with
  | nil =>
    intro value shift u r h
    simp [readVarint64Loop] at h
  | cons b rest ih =>
    intro value shift u r h
    rw [readVarint64Loop_cons] at h
    split_ifs at h with hb
    · rw [Except.ok.injEq, Prod.mk.injEq] at h
      obtain ⟨h1, h2⟩ := h
      subst h2
      simp
    · have := ih _ _ _ _ h
      simp
      omega

/-- `read_varint_u64` consumes at least one byte on success. -/
theorem readVarint64_suffix (l : List Nat) (u : Nat) (r : List Nat)
    (h : readVarint64 l = .ok (u, r)) : r.length < l.length := by
  cases l with
  | nil => simp [readVarint64] at h
  | cons b rest =>
    rw [show readVarint64 (b :: rest)
        = (if b &&& 0x80 = 0 then .ok (b, rest)
           else readVarint64Loop (b &&& 0x7f) 7 rest) from rfl] at h
    split_ifs at h with hb
    · rw [Except.ok.injEq, Prod.mk.injEq] at h
      obtain ⟨h1, h2⟩ := h
      subst h2
      simp
    · have := readVarint64Loop_suffix rest _ _ _ _ h
      simp
      omega

/-- `readBytesN` consumes exactly `n` bytes. -/
theorem readBytesN_len (n : Nat) (l : List Nat) (bs r : List Nat)
    (h : readBytesN n l = some (bs, r)) : r.length + n = l.length := by
  unfold readBytesN at h
  split_ifs at h with hle
  rw [Option.some.injEq, Prod.mk.injEq] at h
  obtain ⟨h1, h2⟩ := h
  subst h2
  simp
  omega

/-- `decode_int32`, taken from the type byte, consumes at least one byte on
success: the sign-extended path eats the type and value bytes, and the
rewind path restarts the varint at the type byte, which `read_varint`
consumes. -/
theorem decodeInt32_suffix (l : List Nat) (v : BiWiValue) (r : List Nat)
    (h : decodeInt32 l = .ok (v, r)) : r.length < l.length := by
  cases l with
  | nil =>
    rw [show decodeInt32 [] = .error (.insufficientData "int32 value") from rfl] at h
    exact absurd h (by simp)
  | cons t rest0 =>
    cases rest0 with
    | nil =>
      rw [show decodeInt32 [t] = .error (.insufficientData "int32 value") from rfl] at h
      exact absurd h (by simp)
    | cons b rest =>
      rw [show decodeInt32 (t :: b :: rest)
          = (if b &&& 0x80 ≠ 0 then .ok (.int32 ((b : Int) - 256), rest)
             else
               match readVarint (t :: b :: rest) with
               | .error e => .error e
               | .ok (u, r) => .ok (.int32 (zigzagDecode32 u), r)) from rfl] at h
      split_ifs at h with hb
      · rw [Except.ok.injEq, Prod.mk.injEq] at h
        obtain ⟨h1, h2⟩ := h
        subst h2
        simp only [List.length_cons]
        omega
      · cases hrv : readVarint (t :: b :: rest) with
        | error e => rw [hrv] at h; simp at h
        | ok pr =>
          rw [hrv] at h
          obtain ⟨u2, r2⟩ := pr
          rw [Except.ok.injEq, Prod.mk.injEq] at h
          obtain ⟨h1, h2⟩ := h
          subst h2
          exact readVarint_suffix _ _ _ hrv

/-- `decode_int64`, taken from the type byte, consumes at least one byte on
success (same two paths as `decode_int32`). -/
theorem decodeInt64_suffix (l : List Nat) (v : BiWiValue) (r : List Nat)
    (h : decodeInt64 l = .ok (v, r)) : r.length < l.length := by
  cases l with
  | nil =>
    rw [show decodeInt64 [] = .error (.insufficientData "int64 value") from rfl] at h
    exact absurd h (by simp)
  | cons t rest0 =>
    cases rest0 with
    | nil =>
      rw [show decodeInt64 [t] = .error (.insufficientData "int64 value") from rfl] at h
      exact absurd h (by simp)
    | cons b rest =>
      rw [show decodeInt64 (t :: b :: rest)
          = (if b &&& 0x80 ≠ 0 then .ok (.int64 ((b : Int) - 256), rest)
             else
               match readVarint64 (t :: b :: rest) with
               | .error e => .error e
               | .ok (u, r) => .ok (.int64 (zigzagDecode64 u), r)) from rfl] at h
      split_ifs at h with hb
      · rw [Except.ok.injEq, Prod.mk.injEq] at h
        obtain ⟨h1, h2⟩ := h
        subst h2
        simp only [List.length_cons]
        omega
      · cases hrv : readVarint64 (t :: b :: rest) with
        | error e => rw [hrv] at h; simp at h
        | ok pr =>
          rw [hrv] at h
          obtain ⟨u2, r2⟩ := pr
          rw [Except.ok.injEq, Prod.mk.injEq] at h
          obtain ⟨h1, h2⟩ := h
          subst h2
          exact readVarint64_suffix _ _ _ hrv

/-- `decode_float32` consumes four bytes on success. -/
theorem decodeFloat32_suffix (l : List Nat) (v : BiWiValue) (r : List Nat)
    (h : decodeFloat32 l = .ok (v, r)) : r.length < l.length := by
  unfold decodeFloat32 at h
  cases hrb : readBytesN 4 l with
  | none => rw [hrb] at h; simp at h
  | some pr =>
    rw [hrb] at h
    obtain ⟨bs, r2⟩ := pr
    rw [Except.ok.injEq, Prod.mk.injEq] at h
    obtain ⟨h1, h2⟩ := h
    subst h2
    have := readBytesN_len 4 l bs r2 hrb
    omega

/-- `decode_float64` consumes eight bytes on success. -/
theorem decodeFloat64_suffix (l : List Nat) (v : BiWiValue) (r : List Nat)
    (h : decodeFloat64 l = .ok (v, r)) : r.length < l.length := by
  unfold decodeFloat64 at h
  cases hrb : readBytesN 8 l with
  | none => rw [hrb] at h; simp at h
  | some pr =>
    rw [hrb] at h
    obtain ⟨bs, r2⟩ := pr
    rw [Except.ok.injEq, Prod.mk.injEq] at h
    obtain ⟨h1, h2⟩ := h
    subst h2
    have := readBytesN_len 8 l bs r2 hrb
    omega

/-- `decode_string` consumes at least one byte on success. -/
theorem decodeString_suffix (l : List Nat) (v : BiWiValue) (r : List Nat)
    (h : decodeString l = .ok (v, r)) : r.length < l.length := by
  cases l with
  | nil => simp [decodeString] at h
  | cons b rest =>
    by_cases hb : b &&& 0x80 ≠ 0
    · cases hrb : readBytesN (b &&& 0x7F) rest with
      | none =>
        rw [show decodeString (b :: rest)
            = .error (.insufficientData "small string content") from by
          unfold decodeString
          dsimp only
          rw [if_pos hb, hrb]] at h
        simp at h
      | some pr =>
        obtain ⟨bs, r2⟩ := pr
        have hlen := readBytesN_len _ rest bs r2 hrb
        rw [show decodeString (b :: rest)
            = (if utf8Valid bs then
                (if bs.length ≤ 15 then Except.ok (BiWiValue.smallString bs, r2)
                 else Except.ok (BiWiValue.string bs, r2))
               else Except.error (DecodeError.invalidData "invalid UTF-8 in small string"))
            from by
          unfold decodeString
          dsimp only
          rw [if_pos hb, hrb]] at h
        split_ifs at h
        · rw [Except.ok.injEq, Prod.mk.injEq] at h
          obtain ⟨h1, h2⟩ := h
          subst h2
          simp
          omega
        · rw [Except.ok.injEq, Prod.mk.injEq] at h
          obtain ⟨h1, h2⟩ := h
          subst h2
          simp
          omega
    · cases hrv : readVarint (b :: rest) with
      | error e =>
        rw [show decodeString (b :: rest) = .error e from by
          unfold decodeString
          dsimp only
          rw [if_neg hb, hrv]] at h
        simp at h
      | ok pr =>
        obtain ⟨length, r1⟩ := pr
        have hv := readVarint_suffix _ _ _ hrv
        cases hrb : readBytesN length r1 with
        | none =>
          rw [show decodeString (b :: rest)
              = .error (.insufficientData "string content") from by
            unfold decodeString
            dsimp only
            rw [if_neg hb, hrv]
            dsimp only
            rw [hrb]] at h
          simp at h
        | some pr2 =>
          obtain ⟨bs, r2⟩ := pr2
          have hlen := readBytesN_len _ r1 bs r2 hrb
          rw [show decodeString (b :: rest)
              = (if utf8Valid bs then Except.ok (BiWiValue.string bs, r2)
                 else Except.error (DecodeError.invalidData "invalid UTF-8")) from by
            unfold decodeString
            dsimp only
            rw [if_neg hb, hrv]
            dsimp only
            rw [hrb]] at h
          split_ifs at h
          rw [Except.ok.injEq, Prod.mk.injEq] at h
          obtain ⟨h1, h2⟩ := h
          subst h2
          simp at hv ⊢
          omega

/-- `decode_binary` consumes at least one byte on success. -/
theorem decodeBinary_suffix (l : List Nat) (v : BiWiValue) (r : List Nat)
    (h : decodeBinary l = .ok (v, r)) : r.length < l.length := by
  cases hrv : readVarint l with
  | error e =>
    rw [show decodeBinary l = .error e from by
      unfold decodeBinary
      rw [hrv]] at h
    simp at h
  | ok pr =>
    obtain ⟨length, r1⟩ := pr
    have hv := readVarint_suffix _ _ _ hrv
    cases hrb : readBytesN length r1 with
    | none =>
      rw [show decodeBinary l = .error (.insufficientData "binary content") from by
        unfold decodeBinary
        rw [hrv]
        dsimp only
        rw [hrb]] at h
      simp at h
    | some pr2 =>
      obtain ⟨bs, r2⟩ := pr2
      have hlen := readBytesN_len _ r1 bs r2 hrb
      rw [show decodeBinary l = Except.ok (BiWiValue.binary bs, r2) from by
        unfold decodeBinary
        rw [hrv]
        dsimp only
        rw [hrb]] at h
      rw [Except.ok.injEq, Prod.mk.injEq] at h
      obtain ⟨h1, h2⟩ := h
      subst h2
      omega

/-- The packed Int32 loop never grows the buffer. -/
theorem decodePackedInt32s_suffix : ∀ n l vs r,
    decodePackedInt32s n l = .ok (vs, r) → r.length ≤ l.length := by
  intro n
  induction n with
  | zero =>
    intro l vs r h
    rw [show decodePackedInt32s 0 l = .ok ([], l) from rfl,
      Except.ok.injEq, Prod.mk.injEq] at h
    obtain ⟨h1, h2⟩ := h
    subst h2
    exact le_rfl
  | succ n ih =>
    intro l vs r h
    cases hrv : readVarint l with
    | error e =>
      rw [show decodePackedInt32s (n + 1) l = .error e from by
        unfold decodePackedInt32s
        rw [hrv]] at h
      simp at h
    | ok pr =>
      obtain ⟨u, r1⟩ := pr
      have hv := readVarint_suffix _ _ _ hrv
      cases hrec : decodePackedInt32s n r1 with
      | error e =>
        rw [show decodePackedInt32s (n + 1) l = .error e from by
          unfold decodePackedInt32s
          rw [hrv]
          dsimp only
          rw [hrec]] at h
        simp at h
      | ok pr2 =>
        obtain ⟨vs2, r2⟩ := pr2
        have hr := ih r1 vs2 r2 hrec
        rw [show decodePackedInt32s (n + 1) l
            = .ok (.int32 (zigzagDecode32 u) :: vs2, r2) from by
          unfold decodePackedInt32s
          rw [hrv]
          dsimp only
          rw [hrec]] at h
        rw [Except.ok.injEq, Prod.mk.injEq] at h
        obtain ⟨h1, h2⟩ := h
        subst h2
        omega

/-- The packed Int64 loop never grows the buffer. -/
theorem decodePackedInt64s_suffix : ∀ n l vs r,
    decodePackedInt64s n l = .ok (vs, r) → r.length ≤ l.length := by
  intro n
  induction n with
  | zero =>
    intro l vs r h
    rw [show decodePackedInt64s 0 l = .ok ([], l) from rfl,
      Except.ok.injEq, Prod.mk.injEq] at h
    obtain ⟨h1, h2⟩ := h
    subst h2
    exact le_rfl
  | succ n ih =>
    intro l vs r h
    cases hrv : readVarint64 l with
    | error e =>
      rw [show decodePackedInt64s (n + 1) l = .error e from by
        unfold decodePackedInt64s
        rw [hrv]] at h
      simp at h
    | ok pr =>
      obtain ⟨u, r1⟩ := pr
      have hv := readVarint64_suffix _ _ _ hrv
      cases hrec : decodePackedInt64s n r1 with
      | error e =>
        rw [show decodePackedInt64s (n + 1) l = .error e from by
          unfold decodePackedInt64s
          rw [hrv]
          dsimp only
          rw [hrec]] at h
        simp at h
      | ok pr2 =>
        obtain ⟨vs2, r2⟩ := pr2
        have hr := ih r1 vs2 r2 hrec
        rw [show decodePackedInt64s (n + 1) l
            = .ok (.int64 (zigzagDecode64 u) :: vs2, r2) from by
          unfold decodePackedInt64s
          rw [hrv]
          dsimp only
          rw [hrec]] at h
        rw [Except.ok.injEq, Prod.mk.injEq] at h
        obtain ⟨h1, h2⟩ := h
        subst h2
        omega

/-- The packed Float32 loop never grows the buffer. -/
theorem decodePackedFloat32s_suffix : ∀ n l vs r,
    decodePackedFloat32s n l = .ok (vs, r) → r.length ≤ l.length := by
  intro n
  induction n with
  | zero =>
    intro l vs r h
    rw [show decodePackedFloat32s 0 l = .ok ([], l) from rfl,
      Except.ok.injEq, Prod.mk.injEq] at h
    obtain ⟨h1, h2⟩ := h
    subst h2
    exact le_rfl
  | succ n ih =>
    intro l vs r h
    cases hrb : readBytesN 4 l with
    | none =>
      rw [show decodePackedFloat32s (n + 1) l
          = .error (.insufficientData "float32 in packed array") from by
        unfold decodePackedFloat32s
        rw [hrb]] at h
      simp at h
    | some pr =>
      obtain ⟨bs, r1⟩ := pr
      have hv := readBytesN_len _ _ _ _ hrb
      cases hrec : decodePackedFloat32s n r1 with
      | error e =>
        rw [show decodePackedFloat32s (n + 1) l = .error e from by
          unfold decodePackedFloat32s
          rw [hrb]
          dsimp only
          rw [hrec]] at h
        simp at h
      | ok pr2 =>
        obtain ⟨vs2, r2⟩ := pr2
        have hr := ih r1 vs2 r2 hrec
        rw [show decodePackedFloat32s (n + 1) l
            = .ok (.float32 (beVal bs) :: vs2, r2) from by
          unfold decodePackedFloat32s
          rw [hrb]
          dsimp only
          rw [hrec]] at h
        rw [Except.ok.injEq, Prod.mk.injEq] at h
        obtain ⟨h1, h2⟩ := h
        subst h2
        omega

/-- The packed Float64 loop never grows the buffer. -/
theorem decodePackedFloat64s_suffix : ∀ n l vs r,
    decodePackedFloat64s n l = .ok (vs, r) → r.length ≤ l.length := by
  intro n
  induction n with
  | zero =>
    intro l vs r h
    rw [show decodePackedFloat64s 0 l = .ok ([], l) from rfl,
      Except.ok.injEq, Prod.mk.injEq] at h
    obtain ⟨h1, h2⟩ := h
    subst h2
    exact le_rfl
  | succ n ih =>
    intro l vs r h
    cases hrb : readBytesN 8 l with
    | none =>
      rw [show decodePackedFloat64s (n + 1) l
          = .error (.insufficientData "float64 in packed array") from by
        unfold decodePackedFloat64s
        rw [hrb]] at h
      simp at h
    | some pr =>
      obtain ⟨bs, r1⟩ := pr
      have hv := readBytesN_len _ _ _ _ hrb
      cases hrec : decodePackedFloat64s n r1 with
      | error e =>
        rw [show decodePackedFloat64s (n + 1) l = .error e from by
          unfold decodePackedFloat64s
          rw [hrb]
          dsimp only
          rw [hrec]] at h
        simp at h
      | ok pr2 =>
        obtain ⟨vs2, r2⟩ := pr2
        have hr := ih r1 vs2 r2 hrec
        rw [show decodePackedFloat64s (n + 1) l
            = .ok (.float64 (beVal bs) :: vs2, r2) from by
          unfold decodePackedFloat64s
          rw [hrb]
          dsimp only
          rw [hrec]] at h
        rw [Except.ok.injEq, Prod.mk.injEq] at h
        obtain ⟨h1, h2⟩ := h
        subst h2
        omega

/-- `decode_packed_array` consumes at least one byte on success. -/
theorem decodePackedArray_suffix (l : List Nat) (v : BiWiValue) (r : List Nat)
    (h : decodePackedArray l = .ok (v, r)) : r.length < l.length := by
  cases l with
  | nil => simp [decodePackedArray] at h
  | cons et rest =>
    cases hrv : readVarint rest with
    | error e =>
      rw [show decodePackedArray (et :: rest) = .error e from by
        unfold decodePackedArray
        dsimp only
        rw [hrv]] at h
      simp at h
    | ok pr =>
      obtain ⟨count, r1⟩ := pr
      have hv := readVarint_suffix _ _ _ hrv
      have hbody : decodePackedArray (et :: rest)
          = (if et = 0x02 then
              match decodePackedInt32s count r1 with
              | .error e => .error e
              | .ok (vs, r2) => .ok (.array vs, r2)
            else if et = 0x03 then
              match decodePackedInt64s count r1 with
              | .error e => .error e
              | .ok (vs, r2) => .ok (.array vs, r2)
            else if et = 0x04 then
              match decodePackedFloat32s count r1 with
              | .error e => .error e
              | .ok (vs, r2) => .ok (.array vs, r2)
            else if et = 0x05 then
              match decodePackedFloat64s count r1 with
              | .error e => .error e
              | .ok (vs, r2) => .ok (.array vs, r2)
            else .error (.invalidData "unknown packed array element type")) := by
        unfold decodePackedArray
        dsimp only
        rw [hrv]
      rw [hbody] at h
      split_ifs at h
      case pos h2 =>
        cases hrec : decodePackedInt32s count r1 with
        | error e => rw [hrec] at h; simp at h
        | ok pr2 =>
          obtain ⟨vs2, r2⟩ := pr2
          have hle := decodePackedInt32s_suffix count r1 vs2 r2 hrec
          rw [hrec] at h
          rw [show (match Except.ok (vs2, r2) with
              | Except.error e => (Except.error e : Except DecodeError (BiWiValue × List Nat))
              | Except.ok (vs, r2) => Except.ok (BiWiValue.array vs, r2))
              = Except.ok (BiWiValue.array vs2, r2) from rfl,
            Except.ok.injEq, Prod.mk.injEq] at h
          obtain ⟨h1, h2⟩ := h
          subst h2
          simp
          omega
      case pos h2 =>
        cases hrec : decodePackedInt64s count r1 with
        | error e => rw [hrec] at h; simp at h
        | ok pr2 =>
          obtain ⟨vs2, r2⟩ := pr2
          have hle := decodePackedInt64s_suffix count r1 vs2 r2 hrec
          rw [hrec] at h
          rw [show (match Except.ok (vs2, r2) with
              | Except.error e => (Except.error e : Except DecodeError (BiWiValue × List Nat))
              | Except.ok (vs, r2) => Except.ok (BiWiValue.array vs, r2))
              = Except.ok (BiWiValue.array vs2, r2) from rfl,
            Except.ok.injEq, Prod.mk.injEq] at h
          obtain ⟨h1, h2⟩ := h
          subst h2
          simp
          omega
      case pos h2 =>
        cases hrec : decodePackedFloat32s count r1 with
        | error e => rw [hrec] at h; simp at h
        | ok pr2 =>
          obtain ⟨vs2, r2⟩ := pr2
          have hle := decodePackedFloat32s_suffix count r1 vs2 r2 hrec
          rw [hrec] at h
          rw [show (match Except.ok (vs2, r2) with
              | Except.error e => (Except.error e : Except DecodeError (BiWiValue × List Nat))
              | Except.ok (vs, r2) => Except.ok (BiWiValue.array vs, r2))
              = Except.ok (BiWiValue.array vs2, r2) from rfl,
            Except.ok.injEq, Prod.mk.injEq] at h
          obtain ⟨h1, h2⟩ := h
          subst h2
          simp
          omega
      case pos h2 =>
        cases hrec : decodePackedFloat64s count r1 with
        | error e => rw [hrec] at h; simp at h
        | ok pr2 =>
          obtain ⟨vs2, r2⟩ := pr2
          have hle := decodePackedFloat64s_suffix count r1 vs2 r2 hrec
          rw [hrec] at h
          rw [show (match Except.ok (vs2, r2) with
              | Except.error e => (Except.error e : Except DecodeError (BiWiValue × List Nat))
              | Except.ok (vs, r2) => Except.ok (BiWiValue.array vs, r2))
              = Except.ok (BiWiValue.array vs2, r2) from rfl,
            Except.ok.injEq, Prod.mk.injEq] at h
          obtain ⟨h1, h2⟩ := h
          subst h2
          simp
          omega

/-! Branch equations for the fuel-indexed decoder, so proofs can rewrite
a `decodeValueF` application without touching raw match terms. -/

theorem decodeValueF_zero (l : List Nat) :
    decodeValueF 0 l = .error (.insufficientData "recursion fuel") := rfl

theorem decodeValueF_nil (fuel : Nat) :
    decodeValueF (fuel + 1) [] = .error (.insufficientData "type byte") := rfl

theorem decodeValueF_packed (fuel : Nat) (rest : List Nat) :
    decodeValueF (fuel + 1) (0x88 :: rest) = decodePackedArray rest := rfl

theorem decodeValueF_null (fuel : Nat) (rest : List Nat) :
    decodeValueF (fuel + 1) (0x00 :: rest) = .ok (.null, rest) := rfl

theorem decodeValueF_btrue (fuel : Nat) (rest : List Nat) :
    decodeValueF (fuel + 1) (0x01 :: rest) = .ok (.boolean true, rest) := rfl

theorem decodeValueF_bfalse (fuel : Nat) (rest : List Nat) :
    decodeValueF (fuel + 1) (0xFF :: rest) = .ok (.boolean false, rest) := rfl

theorem decodeValueF_i32 (fuel : Nat) (rest : List Nat) :
    decodeValueF (fuel + 1) (0x02 :: rest) = decodeInt32 (0x02 :: rest) := rfl

theorem decodeValueF_i64 (fuel : Nat) (rest : List Nat) :
    decodeValueF (fuel + 1) (0x03 :: rest) = decodeInt64 (0x03 :: rest) := rfl

theorem decodeValueF_f32 (fuel : Nat) (rest : List Nat) :
    decodeValueF (fuel + 1) (0x04 :: rest) = decodeFloat32 rest := rfl

theorem decodeValueF_f64 (fuel : Nat) (rest : List Nat) :
    decodeValueF (fuel + 1) (0x05 :: rest) = decodeFloat64 rest := rfl

theorem decodeValueF_str (fuel : Nat) (rest : List Nat) :
    decodeValueF (fuel + 1) (0x06 :: rest) = decodeString rest := rfl

theorem decodeValueF_bin (fuel : Nat) (rest : List Nat) :
    decodeValueF (fuel + 1) (0x07 :: rest) = decodeBinary rest := rfl

theorem decodeValueF_arr_err (fuel : Nat) (rest : List Nat) (e : DecodeError)
    (hrv : readVarint rest = .error e) :
    decodeValueF (fuel + 1) (0x08 :: rest) = .error e := by
  show (match readVarint rest with
        | Except.error e => (Except.error e : Except DecodeError (BiWiValue × List Nat))
        | Except.ok (count, r) =>
          match decodeElemsF fuel count r with
          | Except.error e => Except.error e
          | Except.ok (items, r2) => Except.ok (BiWiValue.array items, r2)) = Except.error e
  rw [hrv]

theorem decodeValueF_arr_err2 (fuel : Nat) (rest : List Nat) (count : Nat) (r1 : List Nat)
    (e : DecodeError)
    (hrv : readVarint rest = .ok (count, r1))
    (he : decodeElemsF fuel count r1 = .error e) :
    decodeValueF (fuel + 1) (0x08 :: rest) = .error e := by
  show (match readVarint rest with
        | Except.error e => (Except.error e : Except DecodeError (BiWiValue × List Nat))
        | Except.ok (count, r) =>
          match decodeElemsF fuel count r with
          | Except.error e => Except.error e
          | Except.ok (items, r2) => Except.ok (BiWiValue.array items, r2)) = Except.error e
  rw [hrv]
  dsimp only
  rw [he]

theorem decodeValueF_arr_ok (fuel : Nat) (rest : List Nat) (count : Nat) (r1 : List Nat)
    (items : List BiWiValue) (r2 : List Nat)
    (hrv : readVarint rest = .ok (count, r1))
    (he : decodeElemsF fuel count r1 = .ok (items, r2)) :
    decodeValueF (fuel + 1) (0x08 :: rest) = .ok (.array items, r2) := by
  show (match readVarint rest with
        | Except.error e => (Except.error e : Except DecodeError (BiWiValue × List Nat))
        | Except.ok (count, r) =>
          match decodeElemsF fuel count r with
          | Except.error e => Except.error e
          | Except.ok (items, r2) => Except.ok (BiWiValue.array items, r2)) = _
  rw [hrv]
  dsimp only
  rw [he]

theorem decodeValueF_obj_err (fuel : Nat) (rest : List Nat) (e : DecodeError)
    (hrv : readVarint rest = .error e) :
    decodeValueF (fuel + 1) (0x09 :: rest) = .error e := by
  show (match readVarint rest with
        | Except.error e => (Except.error e : Except DecodeError (BiWiValue × List Nat))
        | Except.ok (count, r) =>
          match decodeEntriesF fuel count r with
          | Except.error e => Except.error e
          | Except.ok (entries, r2) => Except.ok (BiWiValue.object entries, r2)) = Except.error e
  rw [hrv]

theorem decodeValueF_obj_err2 (fuel : Nat) (rest : List Nat) (count : Nat) (r1 : List Nat)
    (e : DecodeError)
    (hrv : readVarint rest = .ok (count, r1))
    (he : decodeEntriesF fuel count r1 = .error e) :
    decodeValueF (fuel + 1) (0x09 :: rest) = .error e := by
  show (match readVarint rest with
        | Except.error e => (Except.error e : Except DecodeError (BiWiValue × List Nat))
        | Except.ok (count, r) =>
          match decodeEntriesF fuel count r with
          | Except.error e => Except.error e
          | Except.ok (entries, r2) => Except.ok (BiWiValue.object entries, r2)) = Except.error e
  rw [hrv]
  dsimp only
  rw [he]

theorem decodeValueF_obj_ok (fuel : Nat) (rest : List Nat) (count : Nat) (r1 : List Nat)
    (entries : List (List Nat × BiWiValue)) (r2 : List Nat)
    (hrv : readVarint rest = .ok (count, r1))
    (he : decodeEntriesF fuel count r1 = .ok (entries, r2)) :
    decodeValueF (fuel + 1) (0x09 :: rest) = .ok (.object entries, r2) := by
  show (match readVarint rest with
        | Except.error e => (Except.error e : Except DecodeError (BiWiValue × List Nat))
        | Except.ok (count, r) =>
          match decodeEntriesF fuel count r with
          | Except.error e => Except.error e
          | Except.ok (entries, r2) => Except.ok (BiWiValue.object entries, r2)) = _
  rw [hrv]
  dsimp only
  rw [he]

theorem decodeValueF_unknown (fuel t : Nat) (rest : List Nat)
    (h88 : ¬ t = 0x88) (h00 : ¬ t = 0x00) (h01 : ¬ t = 0x01) (hFF : ¬ t = 0xFF)
    (h02 : ¬ t = 0x02) (h03 : ¬ t = 0x03) (h04 : ¬ t = 0x04) (h05 : ¬ t = 0x05)
    (h06 : ¬ t = 0x06) (h07 : ¬ t = 0x07) (h08 : ¬ t = 0x08) (h09 : ¬ t = 0x09) :
    decodeValueF (fuel + 1) (t :: rest) = .error (.unknownType t) := by
  show (if t = 0x88 then decodePackedArray rest
    else if t = 0x00 then .ok (.null, rest)
    else if t = 0x01 then .ok (.boolean true, rest)
    else if t = 0xFF then .ok (.boolean false, rest)
    else if t = 0x02 then decodeInt32 (t :: rest)
    else if t = 0x03 then decodeInt64 (t :: rest)
    else if t = 0x04 then decodeFloat32 rest
    else if t = 0x05 then decodeFloat64 rest
    else if t = 0x06 then decodeString rest
    else if t = 0x07 then decodeBinary rest
    else if t = 0x08 then
      (match readVarint rest with
       | .error e => .error e
       | .ok (count, r) =>
         match decodeElemsF fuel count r with
         | .error e => .error e
         | .ok (items, r2) => .ok (.array items, r2))
    else if t = 0x09 then
      (match readVarint rest with
       | .error e => .error e
       | .ok (count, r) =>
         match decodeEntriesF fuel count r with
         | .error e => .error e
         | .ok (entries, r2) => .ok (.object entries, r2))
    else .error (.unknownType t)) = .error (.unknownType t)
  rw [if_neg h88, if_neg h00, if_neg h01, if_neg hFF, if_neg h02, if_neg h03, if_neg h04,
    if_neg h05, if_neg h06, if_neg h07, if_neg h08, if_neg h09]

theorem decodeElemsF_zero (n : Nat) (l : List Nat) :
    decodeElemsF 0 n l = .error (.insufficientData "recursion fuel") := rfl

theorem decodeElemsF_done (fuel : Nat) (l : List Nat) :
    decodeElemsF (fuel + 1) 0 l = .ok ([], l) := rfl

theorem decodeElemsF_err (fuel n : Nat) (l : List Nat) (e : DecodeError)
    (hv : decodeValueF fuel l = .error e) :
    decodeElemsF (fuel + 1) (n + 1) l = .error e := by
  show (match decodeValueF fuel l with
        | Except.error e => (Except.error e : Except DecodeError (List BiWiValue × List Nat))
        | Except.ok (v, r) =>
          match decodeElemsF fuel n r with
          | Except.error e => Except.error e
          | Except.ok (vs, r2) => Except.ok (v :: vs, r2)) = Except.error e
  rw [hv]

theorem decodeElemsF_err2 (fuel n : Nat) (l : List Nat) (v : BiWiValue) (r : List Nat)
    (e : DecodeError)
    (hv : decodeValueF fuel l = .ok (v, r))
    (hs : decodeElemsF fuel n r = .error e) :
    decodeElemsF (fuel + 1) (n + 1) l = .error e := by
  show (match decodeValueF fuel l with
        | Except.error e => (Except.error e : Except DecodeError (List BiWiValue × List Nat))
        | Except.ok (v, r) =>
          match decodeElemsF fuel n r with
          | Except.error e => Except.error e
          | Except.ok (vs, r2) => Except.ok (v :: vs, r2)) = Except.error e
  rw [hv]
  dsimp only
  rw [hs]

theorem decodeElemsF_ok (fuel n : Nat) (l : List Nat) (v : BiWiValue) (r : List Nat)
    (vs : List BiWiValue) (r2 : List Nat)
    (hv : decodeValueF fuel l = .ok (v, r))
    (hs : decodeElemsF fuel n r = .ok (vs, r2)) :
    decodeElemsF (fuel + 1) (n + 1) l = .ok (v :: vs, r2) := by
  show (match decodeValueF fuel l with
        | Except.error e => (Except.error e : Except DecodeError (List BiWiValue × List Nat))
        | Except.ok (v, r) =>
          match decodeElemsF fuel n r with
          | Except.error e => Except.error e
          | Except.ok (vs, r2) => Except.ok (v :: vs, r2)) = _
  rw [hv]
  dsimp only
  rw [hs]

theorem decodeEntriesF_zero (n : Nat) (l : List Nat) :
    decodeEntriesF 0 n l = .error (.insufficientData "recursion fuel") := rfl

theorem decodeEntriesF_done (fuel : Nat) (l : List Nat) :
    decodeEntriesF (fuel + 1) 0 l = .ok ([], l) := rfl

theorem decodeEntriesF_err_klen (fuel n : Nat) (l : List Nat) (e : DecodeError)
    (hrv : readVarint l = .error e) :
    decodeEntriesF (fuel + 1) (n + 1) l = .error e := by
  show (match readVarint l with
        | Except.error e =>
          (Except.error e : Except DecodeError (List (List Nat × BiWiValue) × List Nat))
        | Except.ok (klen, r1) =>
          match readBytesN klen r1 with
          | none => Except.error (.insufficientData "key content")
          | some (kbs, r2) =>
            if utf8Valid kbs then
              match decodeValueF fuel r2 with
              | Except.error e => Except.error e
              | Except.ok (v, r3) =>
                match decodeEntriesF fuel n r3 with
                | Except.error e => Except.error e
                | Except.ok (es, r4) => Except.ok ((kbs, v) :: es, r4)
            else Except.error (.invalidData "invalid key UTF-8")) = Except.error e
  rw [hrv]

theorem decodeEntriesF_err_key (fuel n : Nat) (l : List Nat) (klen : Nat) (r1 : List Nat)
    (hrv : readVarint l = .ok (klen, r1))
    (hrb : readBytesN klen r1 = none) :
    decodeEntriesF (fuel + 1) (n + 1) l = .error (.insufficientData "key content") := by
  show (match readVarint l with
        | Except.error e =>
          (Except.error e : Except DecodeError (List (List Nat × BiWiValue) × List Nat))
        | Except.ok (klen, r1) =>
          match readBytesN klen r1 with
          | none => Except.error (.insufficientData "key content")
          | some (kbs, r2) =>
            if utf8Valid kbs then
              match decodeValueF fuel r2 with
              | Except.error e => Except.error e
              | Except.ok (v, r3) =>
                match decodeEntriesF fuel n r3 with
                | Except.error e => Except.error e
                | Except.ok (es, r4) => Except.ok ((kbs, v) :: es, r4)
            else Except.error (.invalidData "invalid key UTF-8")) = _
  rw [hrv]
  dsimp only
  rw [hrb]

theorem decodeEntriesF_err_utf8 (fuel n : Nat) (l : List Nat) (klen : Nat) (r1 : List Nat)
    (kbs r2 : List Nat)
    (hrv : readVarint l = .ok (klen, r1))
    (hrb : readBytesN klen r1 = some (kbs, r2))
    (hu : ¬ utf8Valid kbs) :
    decodeEntriesF (fuel + 1) (n + 1) l = .error (.invalidData "invalid key UTF-8") := by
  show (match readVarint l with
        | Except.error e =>
          (Except.error e : Except DecodeError (List (List Nat × BiWiValue) × List Nat))
        | Except.ok (klen, r1) =>
          match readBytesN klen r1 with
          | none => Except.error (.insufficientData "key content")
          | some (kbs, r2) =>
            if utf8Valid kbs then
              match decodeValueF fuel r2 with
              | Except.error e => Except.error e
              | Except.ok (v, r3) =>
                match decodeEntriesF fuel n r3 with
                | Except.error e => Except.error e
                | Except.ok (es, r4) => Except.ok ((kbs, v) :: es, r4)
            else Except.error (.invalidData "invalid key UTF-8")) = _
  rw [hrv]
  dsimp only
  rw [hrb]
  dsimp only
  rw [if_neg hu]

theorem decodeEntriesF_err_val (fuel n : Nat) (l : List Nat) (klen : Nat) (r1 : List Nat)
    (kbs r2 : List Nat) (e : DecodeError)
    (hrv : readVarint l = .ok (klen, r1))
    (hrb : readBytesN klen r1 = some (kbs, r2))
    (hu : utf8Valid kbs)
    (hv : decodeValueF fuel r2 = .error e) :
    decodeEntriesF (fuel + 1) (n + 1) l = .error e := by
  show (match readVarint l with
        | Except.error e =>
          (Except.error e : Except DecodeError (List (List Nat × BiWiValue) × List Nat))
        | Except.ok (klen, r1) =>
          match readBytesN klen r1 with
          | none => Except.error (.insufficientData "key content")
          | some (kbs, r2) =>
            if utf8Valid kbs then
              match decodeValueF fuel r2 with
              | Except.error e => Except.error e
              | Except.ok (v, r3) =>
                match decodeEntriesF fuel n r3 with
                | Except.error e => Except.error e
                | Except.ok (es, r4) => Except.ok ((kbs, v) :: es, r4)
            else Except.error (.invalidData "invalid key UTF-8")) = _
  rw [hrv]
  dsimp only
  rw [hrb]
  dsimp only
  rw [if_pos hu]
  rw [hv]

theorem decodeEntriesF_err_rest (fuel n : Nat) (l : List Nat) (klen : Nat) (r1 : List Nat)
    (kbs r2 : List Nat) (v : BiWiValue) (r3 : List Nat) (e : DecodeError)
    (hrv : readVarint l = .ok (klen, r1))
    (hrb : readBytesN klen r1 = some (kbs, r2))
    (hu : utf8Valid kbs)
    (hv : decodeValueF fuel r2 = .ok (v, r3))
    (hs : decodeEntriesF fuel n r3 = .error e) :
    decodeEntriesF (fuel + 1) (n + 1) l = .error e := by
  show (match readVarint l with
        | Except.error e =>
          (Except.error e : Except DecodeError (List (List Nat × BiWiValue) × List Nat))
        | Except.ok (klen, r1) =>
          match readBytesN klen r1 with
          | none => Except.error (.insufficientData "key content")
          | some (kbs, r2) =>
            if utf8Valid kbs then
              match decodeValueF fuel r2 with
              | Except.error e => Except.error e
              | Except.ok (v, r3) =>
                match decodeEntriesF fuel n r3 with
                | Except.error e => Except.error e
                | Except.ok (es, r4) => Except.ok ((kbs, v) :: es, r4)
            else Except.error (.invalidData "invalid key UTF-8")) = _
  rw [hrv]
  dsimp only
  rw [hrb]
  dsimp only
  rw [if_pos hu]
  rw [hv]
  dsimp only
  rw [hs]

theorem decodeEntriesF_ok (fuel n : Nat) (l : List Nat) (klen : Nat) (r1 : List Nat)
    (kbs r2 : List Nat) (v : BiWiValue) (r3 : List Nat)
    (es : List (List Nat × BiWiValue)) (r4 : List Nat)
    (hrv : readVarint l = .ok (klen, r1))
    (hrb : readBytesN klen r1 = some (kbs, r2))
    (hu : utf8Valid kbs)
    (hv : decodeValueF fuel r2 = .ok (v, r3))
    (hs : decodeEntriesF fuel n r3 = .ok (es, r4)) :
    decodeEntriesF (fuel + 1) (n + 1) l = .ok ((kbs, v) :: es, r4) := by
  show (match readVarint l with
        | Except.error e =>
          (Except.error e : Except DecodeError (List (List Nat × BiWiValue) × List Nat))
        | Except.ok (klen, r1) =>
          match readBytesN klen r1 with
          | none => Except.error (.insufficientData "key content")
          | some (kbs, r2) =>
            if utf8Valid kbs then
              match decodeValueF fuel r2 with
              | Except.error e => Except.error e
              | Except.ok (v, r3) =>
                match decodeEntriesF fuel n r3 with
                | Except.error e => Except.error e
                | Except.ok (es, r4) => Except.ok ((kbs, v) :: es, r4)
            else Except.error (.invalidData "invalid key UTF-8")) = _
  rw [hrv]
  dsimp only
  rw [hrb]
  dsimp only
  rw [if_pos hu]
  rw [hv]
  dsimp only
  rw [hs]

/-- At any fuel, a successful `decodeValueF` consumes at least one byte, and
the element / entry loops never grow the buffer. -/
theorem decode_suffix (fuel : Nat) :
    (∀ l v r, decodeValueF fuel l = .ok (v, r) → r.length < l.length) ∧
    (∀ n l vs r, decodeElemsF fuel n l = .ok (vs, r) → r.length ≤ l.length) ∧
    (∀ n l es r, decodeEntriesF fuel n l = .ok (es, r) → r.length ≤ l.length) := by
  induction fuel with
  | zero =>
    refine ⟨fun l v r h => ?_, fun n l vs r h => ?_, fun n l es r h => ?_⟩
    · rw [decodeValueF_zero] at h; exact absurd h (by simp)
    · rw [decodeElemsF_zero] at h; exact absurd h (by simp)
    · rw [decodeEntriesF_zero] at h; exact absurd h (by simp)
  | succ fuel ih =>
    obtain ⟨ihv, ihe, ihn⟩ := ih
    refine ⟨fun l v r h => ?_, fun n l vs r h => ?_, fun n l es r h => ?_⟩
    · cases l with
      | nil => rw [decodeValueF_nil] at h; exact absurd h (by simp)
      | cons t rest =>
        by_cases h88 : t = 0x88
        · subst h88
          rw [decodeValueF_packed] at h
          have := decodePackedArray_suffix rest v r h
          simp only [List.length_cons]
          omega
        · by_cases h00 : t = 0x00
          · subst h00
            rw [decodeValueF_null] at h
            simp only [Except.ok.injEq, Prod.mk.injEq] at h
            obtain ⟨h1, h2⟩ := h
            subst h2
            simp
          · by_cases h01 : t = 0x01
            · subst h01
              rw [decodeValueF_btrue] at h
              simp only [Except.ok.injEq, Prod.mk.injEq] at h
              obtain ⟨h1, h2⟩ := h
              subst h2
              simp
            · by_cases hFF : t = 0xFF
              · subst hFF
                rw [decodeValueF_bfalse] at h
                simp only [Except.ok.injEq, Prod.mk.injEq] at h
                obtain ⟨h1, h2⟩ := h
                subst h2
                simp
              · by_cases h02 : t = 0x02
                · subst h02
                  rw [decodeValueF_i32] at h
                  exact decodeInt32_suffix (0x02 :: rest) v r h
                · by_cases h03 : t = 0x03
                  · subst h03
                    rw [decodeValueF_i64] at h
                    exact decodeInt64_suffix (0x03 :: rest) v r h
                  · by_cases h04 : t = 0x04
                    · subst h04
                      rw [decodeValueF_f32] at h
                      have := decodeFloat32_suffix rest v r h
                      simp only [List.length_cons]
                      omega
                    · by_cases h05 : t = 0x05
                      · subst h05
                        rw [decodeValueF_f64] at h
                        have := decodeFloat64_suffix rest v r h
                        simp only [List.length_cons]
                        omega
                      · by_cases h06 : t = 0x06
                        · subst h06
                          rw [decodeValueF_str] at h
                          have := decodeString_suffix rest v r h
                          simp only [List.length_cons]
                          omega
                        · by_cases h07 : t = 0x07
                          · subst h07
                            rw [decodeValueF_bin] at h
                            have := decodeBinary_suffix rest v r h
                            simp only [List.length_cons]
                            omega
                          · by_cases h08 : t = 0x08
                            · subst h08
                              cases hrv : readVarint rest with
                              | error e =>
                                rw [decodeValueF_arr_err fuel rest e hrv] at h
                                exact absurd h (by simp)
                              | ok pr =>
                                obtain ⟨count, r1⟩ := pr
                                cases he : decodeElemsF fuel count r1 with
                                | error e =>
                                  rw [decodeValueF_arr_err2 fuel rest count r1 e hrv he] at h
                                  exact absurd h (by simp)
                                | ok pr2 =>
                                  obtain ⟨items, r2⟩ := pr2
                                  rw [decodeValueF_arr_ok fuel rest count r1 items r2 hrv he] at h
                                  simp only [Except.ok.injEq, Prod.mk.injEq] at h
                                  obtain ⟨h1, h2⟩ := h
                                  subst h2
                                  have hv1 := readVarint_suffix rest count r1 hrv
                                  have hv2 := ihe count r1 items r2 he
                                  simp only [List.length_cons]
                                  omega
                            · by_cases h09 : t = 0x09
                              · subst h09
                                cases hrv : readVarint rest with
                                | error e =>
                                  rw [decodeValueF_obj_err fuel rest e hrv] at h
                                  exact absurd h (by simp)
                                | ok pr =>
                                  obtain ⟨count, r1⟩ := pr
                                  cases he : decodeEntriesF fuel count r1 with
                                  | error e =>
                                    rw [decodeValueF_obj_err2 fuel rest count r1 e hrv he] at h
                                    exact absurd h (by simp)
                                  | ok pr2 =>
                                    obtain ⟨ents, r2⟩ := pr2
                                    rw [decodeValueF_obj_ok fuel rest count r1 ents r2 hrv he] at h
                                    simp only [Except.ok.injEq, Prod.mk.injEq] at h
                                    obtain ⟨h1, h2⟩ := h
                                    subst h2
                                    have hv1 := readVarint_suffix rest count r1 hrv
                                    have hv2 := ihn count r1 ents r2 he
                                    simp only [List.length_cons]
                                    omega
                              · rw [decodeValueF_unknown fuel t rest h88 h00 h01 hFF h02 h03
                                  h04 h05 h06 h07 h08 h09] at h
                                exact absurd h (by simp)
    · cases n with
      | zero =>
        rw [decodeElemsF_done] at h
        simp only [Except.ok.injEq, Prod.mk.injEq] at h
        obtain ⟨h1, h2⟩ := h
        subst h2
        exact Nat.le_refl _
      | succ n =>
        cases hv : decodeValueF fuel l with
        | error e =>
          rw [decodeElemsF_err fuel n l e hv] at h
          exact absurd h (by simp)
        | ok pr =>
          obtain ⟨v1, r1⟩ := pr
          cases hs : decodeElemsF fuel n r1 with
          | error e =>
            rw [decodeElemsF_err2 fuel n l v1 r1 e hv hs] at h
            exact absurd h (by simp)
          | ok pr2 =>
            obtain ⟨vs2, r2⟩ := pr2
            rw [decodeElemsF_ok fuel n l v1 r1 vs2 r2 hv hs] at h
            simp only [Except.ok.injEq, Prod.mk.injEq] at h
            obtain ⟨h1, h2⟩ := h
            subst h2
            have hlt := ihv l v1 r1 hv
            have hle := ihe n r1 vs2 r2 hs
            omega
    · cases n with
      | zero =>
        rw [decodeEntriesF_done] at h
        simp only [Except.ok.injEq, Prod.mk.injEq] at h
        obtain ⟨h1, h2⟩ := h
        subst h2
        exact Nat.le_refl _
      | succ n =>
        cases hrv : readVarint l with
        | error e =>
          rw [decodeEntriesF_err_klen fuel n l e hrv] at h
          exact absurd h (by simp)
        | ok pr =>
          obtain ⟨klen, r1⟩ := pr
          cases hrb : readBytesN klen r1 with
          | none =>
            rw [decodeEntriesF_err_key fuel n l klen r1 hrv hrb] at h
            exact absurd h (by simp)
          | some pr2 =>
            obtain ⟨kbs, r2⟩ := pr2
            by_cases hu : utf8Valid kbs
            · cases hv : decodeValueF fuel r2 with
              | error e =>
                rw [decodeEntriesF_err_val fuel n l klen r1 kbs r2 e hrv hrb hu hv] at h
                exact absurd h (by simp)
              | ok pr3 =>
                obtain ⟨v1, r3⟩ := pr3
                cases hs : decodeEntriesF fuel n r3 with
                | error e =>
                  rw [decodeEntriesF_err_rest fuel n l klen r1 kbs r2 v1 r3 e
                    hrv hrb hu hv hs] at h
                  exact absurd h (by simp)
                | ok pr4 =>
                  obtain ⟨es4, r4⟩ := pr4
                  rw [decodeEntriesF_ok fuel n l klen r1 kbs r2 v1 r3 es4 r4
                    hrv hrb hu hv hs] at h
                  simp only [Except.ok.injEq, Prod.mk.injEq] at h
                  obtain ⟨h1, h2⟩ := h
                  subst h2
                  have ha := readVarint_suffix l klen r1 hrv
                  have hb := readBytesN_len klen r1 kbs r2 hrb
                  have hc := ihv r2 v1 r3 hv
                  have hd := ihn n r3 es4 r4 hs
                  omega
            · rw [decodeEntriesF_err_utf8 fuel n l klen r1 kbs r2 hrv hrb hu] at h
              exact absurd h (by simp)

/-- Fuel indifference: any two fuels at least `2·len+1` (for a value) or
`2·len+2` (for a loop) produce identical results. -/
theorem decode_fuel_congr (f₁ : Nat) :
    (∀ f₂ l, 2 * l.length + 1 ≤ f₁ → 2 * l.length + 1 ≤ f₂ →
      decodeValueF f₁ l = decodeValueF f₂ l) ∧
    (∀ f₂ n l, 2 * l.length + 2 ≤ f₁ → 2 * l.length + 2 ≤ f₂ →
      decodeElemsF f₁ n l = decodeElemsF f₂ n l) ∧
    (∀ f₂ n l, 2 * l.length + 2 ≤ f₁ → 2 * l.length + 2 ≤ f₂ →
      decodeEntriesF f₁ n l = decodeEntriesF f₂ n l) := by
  induction f₁ with
  | zero =>
    refine ⟨fun f₂ l h1 h2 => ?_, fun f₂ n l h1 h2 => ?_, fun f₂ n l h1 h2 => ?_⟩ <;> omega
  | succ fuel ih =>
    obtain ⟨ihv, ihe, ihn⟩ := ih
    refine ⟨fun f₂ l h1 h2 => ?_, fun f₂ n l h1 h2 => ?_, fun f₂ n l h1 h2 => ?_⟩
    · cases f₂ with
      | zero => omega
      | succ f₂ =>
        cases l with
        | nil => rw [decodeValueF_nil, decodeValueF_nil]
        | cons t rest =>
          simp only [List.length_cons] at h1 h2
          by_cases h88 : t = 0x88
          · subst h88
            rw [decodeValueF_packed, decodeValueF_packed]
          · by_cases h00 : t = 0x00
            · subst h00
              rw [decodeValueF_null, decodeValueF_null]
            · by_cases h01 : t = 0x01
              · subst h01
                rw [decodeValueF_btrue, decodeValueF_btrue]
              · by_cases hFF : t = 0xFF
                · subst hFF
                  rw [decodeValueF_bfalse, decodeValueF_bfalse]
                · by_cases h02 : t = 0x02
                  · subst h02
                    rw [decodeValueF_i32, decodeValueF_i32]
                  · by_cases h03 : t = 0x03
                    · subst h03
                      rw [decodeValueF_i64, decodeValueF_i64]
                    · by_cases h04 : t = 0x04
                      · subst h04
                        rw [decodeValueF_f32, decodeValueF_f32]
                      · by_cases h05 : t = 0x05
                        · subst h05
                          rw [decodeValueF_f64, decodeValueF_f64]
                        · by_cases h06 : t = 0x06
                          · subst h06
                            rw [decodeValueF_str, decodeValueF_str]
                          · by_cases h07 : t = 0x07
                            · subst h07
                              rw [decodeValueF_bin, decodeValueF_bin]
                            · by_cases h08 : t = 0x08
                              · subst h08
                                cases hrv : readVarint rest with
                                | error e =>
                                  rw [decodeValueF_arr_err fuel rest e hrv,
                                    decodeValueF_arr_err f₂ rest e hrv]
                                | ok pr =>
                                  obtain ⟨count, r1⟩ := pr
                                  have hr1 := readVarint_suffix rest count r1 hrv
                                  have hb1 : 2 * r1.length + 2 ≤ fuel := by omega
                                  have hb2 : 2 * r1.length + 2 ≤ f₂ := by omega
                                  have hcon := ihe f₂ count r1 hb1 hb2
                                  cases he : decodeElemsF fuel count r1 with
                                  | error e =>
                                    have he2 : decodeElemsF f₂ count r1 = .error e := by
                                      rw [← hcon]; exact he
                                    rw [decodeValueF_arr_err2 fuel rest count r1 e hrv he,
                                      decodeValueF_arr_err2 f₂ rest count r1 e hrv he2]
                                  | ok pr2 =>
                                    obtain ⟨items, r2⟩ := pr2
                                    have he2 : decodeElemsF f₂ count r1 = .ok (items, r2) := by
                                      rw [← hcon]; exact he
                                    rw [decodeValueF_arr_ok fuel rest count r1 items r2 hrv he,
                                      decodeValueF_arr_ok f₂ rest count r1 items r2 hrv he2]
                              · by_cases h09 : t = 0x09
                                · subst h09
                                  cases hrv : readVarint rest with
                                  | error e =>
                                    rw [decodeValueF_obj_err fuel rest e hrv,
                                      decodeValueF_obj_err f₂ rest e hrv]
                                  | ok pr =>
                                    obtain ⟨count, r1⟩ := pr
                                    have hr1 := readVarint_suffix rest count r1 hrv
                                    have hb1 : 2 * r1.length + 2 ≤ fuel := by omega
                                    have hb2 : 2 * r1.length + 2 ≤ f₂ := by omega
                                    have hcon := ihn f₂ count r1 hb1 hb2
                                    cases he : decodeEntriesF fuel count r1 with
                                    | error e =>
                                      have he2 : decodeEntriesF f₂ count r1 = .error e := by
                                        rw [← hcon]; exact he
                                      rw [decodeValueF_obj_err2 fuel rest count r1 e hrv he,
                                        decodeValueF_obj_err2 f₂ rest count r1 e hrv he2]
                                    | ok pr2 =>
                                      obtain ⟨ents, r2⟩ := pr2
                                      have he2 : decodeEntriesF f₂ count r1 = .ok (ents, r2) := by
                                        rw [← hcon]; exact he
                                      rw [decodeValueF_obj_ok fuel rest count r1 ents r2 hrv he,
                                        decodeValueF_obj_ok f₂ rest count r1 ents r2 hrv he2]
                                · rw [decodeValueF_unknown fuel t rest h88 h00 h01 hFF h02 h03
                                    h04 h05 h06 h07 h08 h09,
                                    decodeValueF_unknown f₂ t rest h88 h00 h01 hFF h02 h03
                                    h04 h05 h06 h07 h08 h09]
    · cases f₂ with
      | zero => omega
      | succ f₂ =>
        cases n with
        | zero => rw [decodeElemsF_done, decodeElemsF_done]
        | succ n =>
          have hbv1 : 2 * l.length + 1 ≤ fuel := by omega
          have hbv2 : 2 * l.length + 1 ≤ f₂ := by omega
          have hcv := ihv f₂ l hbv1 hbv2
          cases hv : decodeValueF fuel l with
          | error e =>
            have hv2 : decodeValueF f₂ l = .error e := by rw [← hcv]; exact hv
            rw [decodeElemsF_err fuel n l e hv, decodeElemsF_err f₂ n l e hv2]
          | ok pr =>
            obtain ⟨v1, r1⟩ := pr
            have hv2 : decodeValueF f₂ l = .ok (v1, r1) := by rw [← hcv]; exact hv
            have hr1 := (decode_suffix fuel).1 l v1 r1 hv
            have hb1 : 2 * r1.length + 2 ≤ fuel := by omega
            have hb2 : 2 * r1.length + 2 ≤ f₂ := by omega
            have hcs := ihe f₂ n r1 hb1 hb2
            cases hs : decodeElemsF fuel n r1 with
            | error e =>
              have hs2 : decodeElemsF f₂ n r1 = .error e := by rw [← hcs]; exact hs
              rw [decodeElemsF_err2 fuel n l v1 r1 e hv hs,
                decodeElemsF_err2 f₂ n l v1 r1 e hv2 hs2]
            | ok pr2 =>
              obtain ⟨vs2, r2⟩ := pr2
              have hs2 : decodeElemsF f₂ n r1 = .ok (vs2, r2) := by rw [← hcs]; exact hs
              rw [decodeElemsF_ok fuel n l v1 r1 vs2 r2 hv hs,
                decodeElemsF_ok f₂ n l v1 r1 vs2 r2 hv2 hs2]
    · cases f₂ with
      | zero => omega
      | succ f₂ =>
        cases n with
        | zero => rw [decodeEntriesF_done, decodeEntriesF_done]
        | succ n =>
          cases hrv : readVarint l with
          | error e =>
            rw [decodeEntriesF_err_klen fuel n l e hrv, decodeEntriesF_err_klen f₂ n l e hrv]
          | ok pr =>
            obtain ⟨klen, r1⟩ := pr
            cases hrb : readBytesN klen r1 with
            | none =>
              rw [decodeEntriesF_err_key fuel n l klen r1 hrv hrb,
                decodeEntriesF_err_key f₂ n l klen r1 hrv hrb]
            | some pr2 =>
              obtain ⟨kbs, r2⟩ := pr2
              by_cases hu : utf8Valid kbs
              · have ha := readVarint_suffix l klen r1 hrv
                have hb := readBytesN_len klen r1 kbs r2 hrb
                have hbv1 : 2 * r2.length + 1 ≤ fuel := by omega
                have hbv2 : 2 * r2.length + 1 ≤ f₂ := by omega
                have hcv := ihv f₂ r2 hbv1 hbv2
                cases hv : decodeValueF fuel r2 with
                | error e =>
                  have hv2 : decodeValueF f₂ r2 = .error e := by rw [← hcv]; exact hv
                  rw [decodeEntriesF_err_val fuel n l klen r1 kbs r2 e hrv hrb hu hv,
                    decodeEntriesF_err_val f₂ n l klen r1 kbs r2 e hrv hrb hu hv2]
                | ok pr3 =>
                  obtain ⟨v1, r3⟩ := pr3
                  have hv2 : decodeValueF f₂ r2 = .ok (v1, r3) := by rw [← hcv]; exact hv
                  have hr3 := (decode_suffix fuel).1 r2 v1 r3 hv
                  have hc1 : 2 * r3.length + 2 ≤ fuel := by omega
                  have hc2 : 2 * r3.length + 2 ≤ f₂ := by omega
                  have hcs := ihn f₂ n r3 hc1 hc2
                  cases hs : decodeEntriesF fuel n r3 with
                  | error e =>
                    have hs2 : decodeEntriesF f₂ n r3 = .error e := by rw [← hcs]; exact hs
                    rw [decodeEntriesF_err_rest fuel n l klen r1 kbs r2 v1 r3 e hrv hrb hu hv hs,
                      decodeEntriesF_err_rest f₂ n l klen r1 kbs r2 v1 r3 e hrv hrb hu hv2 hs2]
                  | ok pr4 =>
                    obtain ⟨es4, r4⟩ := pr4
                    have hs2 : decodeEntriesF f₂ n r3 = .ok (es4, r4) := by rw [← hcs]; exact hs
                    rw [decodeEntriesF_ok fuel n l klen r1 kbs r2 v1 r3 es4 r4 hrv hrb hu hv hs,
                      decodeEntriesF_ok f₂ n l klen r1 kbs r2 v1 r3 es4 r4 hrv hrb hu hv2 hs2]
              · rw [decodeEntriesF_err_utf8 fuel n l klen r1 kbs r2 hrv hrb hu,
                  decodeEntriesF_err_utf8 f₂ n l klen r1 kbs r2 hrv hrb hu]

/-- C10: `decode_value` terminates on every input buffer, well-founded on the
number of unread bytes.  In the fuel-indexed embedding this is the statement
that (a) the result is independent of the fuel once the fuel exceeds the
canonical bound `2·len+1` derived from the buffer length — i.e. the recursion
bottoms out on its own, never by fuel exhaustion — and (b) every successful
nested `decode_value` consumes at least one byte of the buffer, which is the
well-foundedness argument itself. -/
theorem c10_decode_value_terminates :
    (∀ fuel l, 2 * l.length + 1 ≤ fuel → decodeValueF fuel l = decodeValue l) ∧
    (∀ fuel l v r, decodeValueF fuel l = .ok (v, r) → r.length < l.length) := by
  constructor
  · intro fuel l h
    unfold decodeValue stdFuel
    exact (decode_fuel_congr fuel).1 (2 * l.length + 1) l h (Nat.le_refl _)
  · intro fuel l v r h
    exact (decode_suffix fuel).1 l v r h

theorem c10_decode_value_terminates_witness :
    decodeValueF 9 [0x08, 0x01, 0x00] = decodeValue [0x08, 0x01, 0x00] ∧
    ([] : List Nat).length < ([0x08, 0x01, 0x00] : List Nat).length :=
  ⟨c10_decode_value_terminates.1 9 [0x08, 0x01, 0x00] (by decide),
   c10_decode_value_terminates.2 9 [0x08, 0x01, 0x00] (.array [.null]) [] rfl⟩

/-! Retransmission budget (C9): run `get_retransmit_packets` over an
arbitrary schedule of tick instants and count how often a given sequence
number is handed back for retransmission. -/

/-- Number of retransmission pairs in one call result that carry the packet
with sequence number `s`. -/
def cntOut (s : Nat) : List (UdpPacket × Nat) → Nat
  | [] => 0
  | pr :: rest => (if pr.1.sequence = s then 1 else 0) + cntOut s rest

/-- Total retransmissions of sequence `s` across a run's call results. -/
def countSeq (s : Nat) : List (List (UdpPacket × Nat)) → Nat
  | [] => 0
  | out :: rest => cntOut s out + countSeq s rest

/-- Call `get_retransmit_packets` once per tick instant, threading the
manager state; collect every call's retransmission list. -/
def retxRun : PacketManager → List Nat → List (List (UdpPacket × Nat)) × PacketManager
  | pm, [] => ([], pm)
  | pm, t :: ts =>
    ((getRetransmitPackets t pm).1 :: (retxRun (getRetransmitPackets t pm).2 ts).1,
      (retxRun (getRetransmitPackets t pm).2 ts).2)

/-- Remaining retransmission budget of sequence `s` in a pending table:
`maxR - retries` summed over the entries keyed `s`. -/
def potS (maxR s : Nat) : List (Nat × Pending) → Nat
  | [] => 0
  | kv :: rest => (if kv.1 = s then maxR - kv.2.retries else 0) + potS maxR s rest

theorem retxGo_nil (now t maxR : Nat) : retxGo now t maxR [] = ([], []) := rfl

theorem retxGo_cons_retx (now t maxR seq : Nat) (e : Pending) (rest : List (Nat × Pending))
    (h1 : now - e.sendTime > t) (h2 : e.retries < maxR) :
    retxGo now t maxR ((seq, e) :: rest)
      = ((e.packet, e.retries + 1) :: (retxGo now t maxR rest).1,
         (seq, ⟨e.packet, now, e.retries + 1⟩) :: (retxGo now t maxR rest).2) := by
  show (if now - e.sendTime > t then
          if e.retries < maxR then
            ((e.packet, e.retries + 1) :: (retxGo now t maxR rest).1,
              (seq, ⟨e.packet, now, e.retries + 1⟩) :: (retxGo now t maxR rest).2)
          else ((retxGo now t maxR rest).1, (retxGo now t maxR rest).2)
        else ((retxGo now t maxR rest).1, (seq, e) :: (retxGo now t maxR rest).2)) = _
  rw [if_pos h1, if_pos h2]

theorem retxGo_cons_drop (now t maxR seq : Nat) (e : Pending) (rest : List (Nat × Pending))
    (h1 : now - e.sendTime > t) (h2 : ¬ e.retries < maxR) :
    retxGo now t maxR ((seq, e) :: rest)
      = ((retxGo now t maxR rest).1, (retxGo now t maxR rest).2) := by
  show (if now - e.sendTime > t then
          if e.retries < maxR then
            ((e.packet, e.retries + 1) :: (retxGo now t maxR rest).1,
              (seq, ⟨e.packet, now, e.retries + 1⟩) :: (retxGo now t maxR rest).2)
          else ((retxGo now t maxR rest).1, (retxGo now t maxR rest).2)
        else ((retxGo now t maxR rest).1, (seq, e) :: (retxGo now t maxR rest).2)) = _
  rw [if_pos h1, if_neg h2]

theorem retxGo_cons_keep (now t maxR seq : Nat) (e : Pending) (rest : List (Nat × Pending))
    (h1 : ¬ now - e.sendTime > t) :
    retxGo now t maxR ((seq, e) :: rest)
      = ((retxGo now t maxR rest).1, (seq, e) :: (retxGo now t maxR rest).2) := by
  show (if now - e.sendTime > t then
          if e.retries < maxR then
            ((e.packet, e.retries + 1) :: (retxGo now t maxR rest).1,
              (seq, ⟨e.packet, now, e.retries + 1⟩) :: (retxGo now t maxR rest).2)
          else ((retxGo now t maxR rest).1, (retxGo now t maxR rest).2)
        else ((retxGo now t maxR rest).1, (seq, e) :: (retxGo now t maxR rest).2)) = _
  rw [if_neg h1]

theorem getRetx_fst (now : Nat) (pm : PacketManager) :
    (getRetransmitPackets now pm).1
      = (retxGo now pm.ackTimeout pm.maxRetries pm.pendingAcks).1 := rfl

theorem getRetx_pend (now : Nat) (pm : PacketManager) :
    (getRetransmitPackets now pm).2.pendingAcks
      = (retxGo now pm.ackTimeout pm.maxRetries pm.pendingAcks).2 := rfl

theorem getRetx_maxR (now : Nat) (pm : PacketManager) :
    (getRetransmitPackets now pm).2.maxRetries = pm.maxRetries := rfl

theorem getRetx_timeout (now : Nat) (pm : PacketManager) :
    (getRetransmitPackets now pm).2.ackTimeout = pm.ackTimeout := rfl

/-- One call's retransmissions of `s` are paid for by the drop in the
remaining budget for `s`. -/
theorem retxGo_budget (now t maxR s : Nat) :
    ∀ pend : List (Nat × Pending), (∀ kv ∈ pend, kv.2.packet.sequence = kv.1) →
    cntOut s (retxGo now t maxR pend).1 + potS maxR s (retxGo now t maxR pend).2
      ≤ potS maxR s pend := by
  intro pend
  induction pend with
  | nil =>
    intro _
    rw [retxGo_nil]
    simp [cntOut, potS]
  | cons kv rest ih =>
    intro hwf
    obtain ⟨seq, e⟩ := kv
    have hseq : e.packet.sequence = seq := hwf (seq, e) (List.mem_cons_self _ _)
    have ihr := ih (fun kv hkv => hwf kv (List.mem_cons_of_mem _ hkv))
    by_cases h1 : now - e.sendTime > t
    · by_cases h2 : e.retries < maxR
      · rw [retxGo_cons_retx now t maxR seq e rest h1 h2]
        simp only [cntOut, potS, hseq]
        by_cases hs : seq = s
        · simp only [if_pos hs]
          omega
        · simp only [if_neg hs]
          omega
      · rw [retxGo_cons_drop now t maxR seq e rest h1 h2]
        simp only [potS]
        by_cases hs : seq = s
        · simp only [if_pos hs]
          omega
        · simp only [if_neg hs]
          omega
    · rw [retxGo_cons_keep now t maxR seq e rest h1]
      simp only [potS]
      by_cases hs : seq = s
      · simp only [if_pos hs]
        omega
      · simp only [if_neg hs]
        omega

/-- The per-entry body keeps every entry's packet stamped with its own key. -/
theorem retxGo_wf (now t maxR : Nat) :
    ∀ pend : List (Nat × Pending), (∀ kv ∈ pend, kv.2.packet.sequence = kv.1) →
    ∀ kv ∈ (retxGo now t maxR pend).2, kv.2.packet.sequence = kv.1 := by
  intro pend
  induction pend with
  | nil =>
    intro _ kv hkv
    rw [retxGo_nil] at hkv
    exact absurd hkv (by simp)
  | cons kv0 rest ih =>
    intro hwf kv hkv
    obtain ⟨seq, e⟩ := kv0
    have hseq : e.packet.sequence = seq := hwf (seq, e) (List.mem_cons_self _ _)
    have ihr := ih (fun kv hkv => hwf kv (List.mem_cons_of_mem _ hkv))
    by_cases h1 : now - e.sendTime > t
    · by_cases h2 : e.retries < maxR
      · rw [retxGo_cons_retx now t maxR seq e rest h1 h2] at hkv
        rcases List.mem_cons.mp hkv with h | h
        · subst h
          exact hseq
        · exact ihr kv h
      · rw [retxGo_cons_drop now t maxR seq e rest h1 h2] at hkv
        exact ihr kv hkv
    · rw [retxGo_cons_keep now t maxR seq e rest h1] at hkv
      rcases List.mem_cons.mp hkv with h | h
      · subst h
        exact hseq
      · exact ihr kv h

/-- The keys surviving one call form a sublist of the original keys. -/
theorem retxGo_keys_sublist (now t maxR : Nat) :
    ∀ pend : List (Nat × Pending),
    ((retxGo now t maxR pend).2.map Prod.fst).Sublist (pend.map Prod.fst) := by
  intro pend
  induction pend with
  | nil =>
    rw [retxGo_nil]
  | cons kv0 rest ih =>
    obtain ⟨seq, e⟩ := kv0
    by_cases h1 : now - e.sendTime > t
    · by_cases h2 : e.retries < maxR
      · rw [retxGo_cons_retx now t maxR seq e rest h1 h2]
        simp only [List.map_cons]
        exact ih.cons₂ seq
      · rw [retxGo_cons_drop now t maxR seq e rest h1 h2]
        simp only [List.map_cons]
        exact ih.cons seq
    · rw [retxGo_cons_keep now t maxR seq e rest h1]
      simp only [List.map_cons]
      exact ih.cons₂ seq

/-- Every retransmission pair comes from a pending entry that has timed out
and still has retries left, re-issued with `retries + 1`. -/
theorem retxGo_out_mem (now t maxR : Nat) :
    ∀ pend : List (Nat × Pending), ∀ pr ∈ (retxGo now t maxR pend).1,
    ∃ seq e, (seq, e) ∈ pend ∧ now - e.sendTime > t ∧ e.retries < maxR ∧
      pr = (e.packet, e.retries + 1) := by
  intro pend
  induction pend with
  | nil =>
    intro pr hpr
    rw [retxGo_nil] at hpr
    exact absurd hpr (by simp)
  | cons kv0 rest ih =>
    intro pr hpr
    obtain ⟨seq, e⟩ := kv0
    by_cases h1 : now - e.sendTime > t
    · by_cases h2 : e.retries < maxR
      · rw [retxGo_cons_retx now t maxR seq e rest h1 h2] at hpr
        rcases List.mem_cons.mp hpr with h | h
        · exact ⟨seq, e, List.mem_cons_self _ _, h1, h2, h⟩
        · obtain ⟨s2, e2, hm, ha, hb, hc⟩ := ih pr h
          exact ⟨s2, e2, List.mem_cons_of_mem _ hm, ha, hb, hc⟩
      · rw [retxGo_cons_drop now t maxR seq e rest h1 h2] at hpr
        obtain ⟨s2, e2, hm, ha, hb, hc⟩ := ih pr hpr
        exact ⟨s2, e2, List.mem_cons_of_mem _ hm, ha, hb, hc⟩
    · rw [retxGo_cons_keep now t maxR seq e rest h1] at hpr
      obtain ⟨s2, e2, hm, ha, hb, hc⟩ := ih pr hpr
      exact ⟨s2, e2, List.mem_cons_of_mem _ hm, ha, hb, hc⟩

/-- A not-yet-timed-out entry survives one call untouched. -/
theorem retxGo_keep_mem (now t maxR : Nat) :
    ∀ pend : List (Nat × Pending), ∀ seq e, (seq, e) ∈ pend →
    ¬ now - e.sendTime > t → (seq, e) ∈ (retxGo now t maxR pend).2 := by
  intro pend
  induction pend with
  | nil =>
    intro seq e hm _
    exact absurd hm (by simp)
  | cons kv0 rest ih =>
    intro seq e hm hfresh
    obtain ⟨s0, e0⟩ := kv0
    rcases List.mem_cons.mp hm with h | h
    · obtain ⟨hs, he⟩ := Prod.mk.injEq .. ▸ h
      subst hs
      subst he
      rw [retxGo_cons_keep now t maxR seq e rest hfresh]
      exact List.mem_cons_self _ _
    · have htail := ih seq e h hfresh
      by_cases h1 : now - e0.sendTime > t
      · by_cases h2 : e0.retries < maxR
        · rw [retxGo_cons_retx now t maxR s0 e0 rest h1 h2]
          exact List.mem_cons_of_mem _ htail
        · rw [retxGo_cons_drop now t maxR s0 e0 rest h1 h2]
          exact htail
      · rw [retxGo_cons_keep now t maxR s0 e0 rest h1]
        exact List.mem_cons_of_mem _ htail

/-- A timed-out entry whose retries are exhausted is removed: its key is
absent from the surviving table (keys assumed unique, as for a `HashMap`). -/
theorem retxGo_drop_mem (now t maxR : Nat) :
    ∀ pend : List (Nat × Pending), (pend.map Prod.fst).Nodup →
    ∀ seq e, (seq, e) ∈ pend → now - e.sendTime > t → ¬ e.retries < maxR →
    ∀ kv ∈ (retxGo now t maxR pend).2, kv.1 ≠ seq := by
  intro pend
  induction pend with
  | nil =>
    intro _ seq e hm
    exact absurd hm (by simp)
  | cons kv0 rest ih =>
    intro hnd seq e hm htime hexh kv hkv
    obtain ⟨s0, e0⟩ := kv0
    simp only [List.map_cons, List.nodup_cons] at hnd
    obtain ⟨hs0, hndr⟩ := hnd
    rcases List.mem_cons.mp hm with h | h
    · obtain ⟨hs, he⟩ := Prod.mk.injEq .. ▸ h
      subst hs
      subst he
      rw [retxGo_cons_drop now t maxR seq e rest htime hexh] at hkv
      have hmem := (retxGo_keys_sublist now t maxR rest).subset
        (List.mem_map_of_mem Prod.fst hkv)
      intro hEq
      exact hs0 (hEq ▸ hmem)
    · have hne : s0 ≠ seq := by
        intro hEq
        exact hs0 (hEq ▸ List.mem_map_of_mem Prod.fst h)
      by_cases h1 : now - e0.sendTime > t
      · by_cases h2 : e0.retries < maxR
        · rw [retxGo_cons_retx now t maxR s0 e0 rest h1 h2] at hkv
          rcases List.mem_cons.mp hkv with hh | hh
          · subst hh
            exact hne
          · exact ih hndr seq e h htime hexh kv hh
        · rw [retxGo_cons_drop now t maxR s0 e0 rest h1 h2] at hkv
          exact ih hndr seq e h htime hexh kv hkv
      · rw [retxGo_cons_keep now t maxR s0 e0 rest h1] at hkv
        rcases List.mem_cons.mp hkv with hh | hh
        · subst hh
          exact hne
        · exact ih hndr seq e h htime hexh kv hh

theorem potS_not_mem (maxR s : Nat) :
    ∀ pend : List (Nat × Pending), s ∉ pend.map Prod.fst → potS maxR s pend = 0 := by
  intro pend
  induction pend with
  | nil => intro _; rfl
  | cons kv0 rest ih =>
    intro h
    simp only [List.map_cons, List.mem_cons, not_or] at h
    obtain ⟨h1, h2⟩ := h
    simp only [potS]
    rw [if_neg (fun hk => h1 hk.symm), ih h2]

/-- With unique keys the remaining budget of any one sequence is at most
`maxR`. -/
theorem potS_le (maxR s : Nat) :
    ∀ pend : List (Nat × Pending), (pend.map Prod.fst).Nodup →
    potS maxR s pend ≤ maxR := by
  intro pend
  induction pend with
  | nil => intro _; exact Nat.zero_le _
  | cons kv0 rest ih =>
    intro hnd
    simp only [List.map_cons, List.nodup_cons] at hnd
    obtain ⟨h1, h2⟩ := hnd
    simp only [potS]
    by_cases hk : kv0.1 = s
    · rw [if_pos hk, potS_not_mem maxR s rest (hk ▸ h1)]
      omega
    · rw [if_neg hk]
      have := ih h2
      omega

/-- Run-level budget: the total number of retransmissions of `s`, over any
schedule, never exceeds the initial remaining budget. -/
theorem retxRun_budget (s : Nat) :
    ∀ (ts : List Nat) (pm : PacketManager),
    (∀ kv ∈ pm.pendingAcks, kv.2.packet.sequence = kv.1) →
    countSeq s (retxRun pm ts).1 + potS pm.maxRetries s (retxRun pm ts).2.pendingAcks
      ≤ potS pm.maxRetries s pm.pendingAcks := by
  intro ts
  induction ts with
  | nil =>
    intro pm hwf
    show countSeq s [] + potS pm.maxRetries s pm.pendingAcks ≤ _
    simp [countSeq]
  | cons t ts ih =>
    intro pm hwf
    show cntOut s (getRetransmitPackets t pm).1
        + countSeq s (retxRun (getRetransmitPackets t pm).2 ts).1
        + potS pm.maxRetries s (retxRun (getRetransmitPackets t pm).2 ts).2.pendingAcks
      ≤ potS pm.maxRetries s pm.pendingAcks
    have hwf2 : ∀ kv ∈ (getRetransmitPackets t pm).2.pendingAcks,
        kv.2.packet.sequence = kv.1 := by
      rw [getRetx_pend]
      exact retxGo_wf t pm.ackTimeout pm.maxRetries pm.pendingAcks hwf
    have hstep := retxGo_budget t pm.ackTimeout pm.maxRetries s pm.pendingAcks hwf
    have hrec := ih (getRetransmitPackets t pm).2 hwf2
    rw [getRetx_maxR, getRetx_pend] at hrec
    rw [getRetx_fst]
    omega

/-- C9: retransmission budget of `get_retransmit_packets`.  For a pending
table whose entries are keyed by their packet's sequence number (unique keys,
as a `HashMap` guarantees): (1) over ANY schedule of calls, a given sequence
is handed back for retransmission at most `max_retries` times in total —
with the original send this caps total transmissions at `max_retries + 1`;
(2) every retransmitted pair comes from a pending entry whose age exceeds
`ack_timeout` with retries left, re-issued with `retries + 1`; (3) an entry
that has not yet timed out is kept untouched; (4) a timed-out entry with
retries exhausted is removed silently — the call returns no error, the key is
simply gone; (5) an ACK removes the pending entry (DONE). -/
theorem c9_retransmit_budget :
    (∀ (pm : PacketManager) (ts : List Nat) (s : Nat),
      (∀ kv ∈ pm.pendingAcks, kv.2.packet.sequence = kv.1) →
      (pm.pendingAcks.map Prod.fst).Nodup →
      countSeq s (retxRun pm ts).1 ≤ pm.maxRetries) ∧
    (∀ (now : Nat) (pm : PacketManager), ∀ pr ∈ (getRetransmitPackets now pm).1,
      ∃ seq e, (seq, e) ∈ pm.pendingAcks ∧ now - e.sendTime > pm.ackTimeout ∧
        e.retries < pm.maxRetries ∧ pr = (e.packet, e.retries + 1)) ∧
    (∀ (now : Nat) (pm : PacketManager) (seq : Nat) (e : Pending),
      (seq, e) ∈ pm.pendingAcks → ¬ now - e.sendTime > pm.ackTimeout →
      (seq, e) ∈ (getRetransmitPackets now pm).2.pendingAcks) ∧
    (∀ (now : Nat) (pm : PacketManager) (seq : Nat) (e : Pending),
      (pm.pendingAcks.map Prod.fst).Nodup →
      (seq, e) ∈ pm.pendingAcks → now - e.sendTime > pm.ackTimeout →
      ¬ e.retries < pm.maxRetries →
      ∀ kv ∈ (getRetransmitPackets now pm).2.pendingAcks, kv.1 ≠ seq) ∧
    (∀ (s : Nat) (pm : PacketManager), lookupPending (handleAck s pm).2 s = none) := by
  refine ⟨?_, ?_, ?_, ?_, ?_⟩
  · intro pm ts s hwf hnd
    have h := retxRun_budget s ts pm hwf
    have hle := potS_le pm.maxRetries s pm.pendingAcks hnd
    omega
  · intro now pm pr hpr
    rw [getRetx_fst] at hpr
    exact retxGo_out_mem now pm.ackTimeout pm.maxRetries pm.pendingAcks pr hpr
  · intro now pm seq e hm hfresh
    rw [getRetx_pend]
    exact retxGo_keep_mem now pm.ackTimeout pm.maxRetries pm.pendingAcks seq e hm hfresh
  · intro now pm seq e hnd hm htime hexh kv hkv
    rw [getRetx_pend] at hkv
    exact retxGo_drop_mem now pm.ackTimeout pm.maxRetries pm.pendingAcks hnd
      seq e hm htime hexh kv hkv
  · intro s pm
    have hfind : (pm.pendingAcks.filter (fun kv => kv.1 ≠ s)).find?
        (fun kv => kv.1 == s) = none := by
      apply List.find?_eq_none.mpr
      intro x hx
      have hxne := (List.mem_filter.mp hx).2
      simp only [ne_eq, decide_not, Bool.not_eq_true', decide_eq_false_iff_not] at hxne
      simp only [beq_iff_eq]
      exact hxne
    show ((pm.pendingAcks.filter (fun kv => kv.1 ≠ s)).find?
        (fun kv => kv.1 == s)).map (·.2) = none
    rw [hfind]
    rfl

theorem c9_retransmit_budget_witness :
    countSeq 0 (retxRun
      { sequenceNumber := 1, lastAckReceived := 2 ^ 32 - 1,
        pendingAcks := [(0, ⟨⟨.data, 0, 2 ^ 32 - 1, 3, [7]⟩, 0, 0⟩)],
        receivedSequences := [], ackTimeout := 100, maxRetries := 3 }
      [200, 400, 600, 800, 1000]).1 ≤ 3 :=
  c9_retransmit_budget.1
    { sequenceNumber := 1, lastAckReceived := 2 ^ 32 - 1,
      pendingAcks := [(0, ⟨⟨.data, 0, 2 ^ 32 - 1, 3, [7]⟩, 0, 0⟩)],
      receivedSequences := [], ackTimeout := 100, maxRetries := 3 }
    [200, 400, 600, 800, 1000] 0 (by decide) (by decide)

end BiWi
